import Mathlib

set_option maxHeartbeats 1000000

/-!
Verification of the component-props extractor ("proper-typescript").

The embedded program is the final Finder variant: the function
findComponentsInSourceFile with its nested helpers storeRef,
findComponentsInClass, isTypeReactComponent, propertyToObjectMember,
typeToPropSpec and symbolToFunctionPropType, together with the free helpers
getConstraintTypeFromTypeParam, isTypeVoid and withTypeDecl.

The host type system (ts-morph / TypeScript) is modelled as a type graph:
every type, symbol and declaration is a numeric handle, and a node records
the answers the code observes through the accessor API (isNullable,
getNonNullableType, isString, isObject, getProperties, ...).  Identity of a
type-graph node is identity of its handle, which matches the identity
semantics of the Map used for the reference-table memo.  The run is
fuel-indexed; exceptions of the source become Except.error values.
-/

namespace ProperTs

/-- Literal payloads of the source: string | number | PseudoBigInt | boolean.
Numeric payloads flow through classification untouched, so we carry them as
integers. -/
inductive LiteralValue where
  | str (s : String)
  | num (n : Int)
  | bigint (n : Int)
  | bool (b : Bool)
  deriving Repr, DecidableEq

mutual

/-- PropType of the source: the closed set of schema variants.  The source
kind "partial" is modelled by the constructor partRef (the word itself is
reserved here); it carries a reference-table index exactly like ref. -/
inductive PropType where
  | any
  | void
  | string
  | number
  | boolean
  | reactElement
  | reactNode
  | event
  | literal (value : LiteralValue)
  | union (options : List PropType)
  | ref (refIndex : Nat)
  | partRef (refIndex : Nat)
  | array (elementPropType : PropType)
  | fn (argTypes : List PropSpec) (returnType : PropSpec)

/-- PropSpec of the source: a variant plus a nullability flag. -/
inductive PropSpec where
  | mk (propType : PropType) (isNullable : Bool)

end

def PropSpec.propType : PropSpec → PropType
  | .mk p _ => p

def PropSpec.isNullable : PropSpec → Bool
  | .mk _ b => b

/-- The kind tag each variant carries in the source's wire format. -/
def PropType.kind : PropType → String
  | .any => "any"
  | .void => "void"
  | .string => "string"
  | .number => "number"
  | .boolean => "boolean"
  | .reactElement => "reactElement"
  | .reactNode => "reactNode"
  | .event => "event"
  | .literal _ => "literal"
  | .union _ => "union"
  | .ref _ => "ref"
  | .partRef _ => "partial"
  | .array _ => "array"
  | .fn _ _ => "fn"

/-- ObjectMember of the source: { name, isNullable, propType }. -/
structure ObjectMember where
  name : String
  isNullable : Bool
  propType : PropType

/-- ObjectSpec of the source: { name : string | null, members }. -/
structure ObjectSpec where
  name : Option String
  members : List ObjectMember

/-- ComponentSpec of the source: { name, propsRefIndex }. -/
structure ComponentSpec where
  name : String
  propsRefIndex : Nat
  deriving Repr, DecidableEq

/-- FinderResult of the source: { components, refs }. -/
structure FinderResult where
  components : List ComponentSpec
  refs : List ObjectSpec

/-- A symbol handle: fully qualified name, plain name, declaration handles,
and getTypeAtLocation as a function from a declaration handle to a type
handle (used for property symbols). -/
structure Sym where
  fqn : String
  name : String
  decls : List Nat
  typeAt : Nat → Nat

/-- A declaration handle: whether it is a signatured declaration (with
parameter types and a return type), and whether it is a type-parameter
declaration (with an optional constraint type). -/
structure Decl where
  isSignatured : Bool := false
  params : List Nat := []
  returnType : Nat := 0
  isTypeParamDecl : Bool := false
  constraint : Option Nat := none

/-- A type-graph node: the answers the code observes through the ts-morph
accessors on one Type handle. -/
structure TypeNode where
  symbol : Option Nat := none
  aliasSymbol : Option Nat := none
  isNullable : Bool := false
  nonNullable : Nat := 0
  isVoidLike : Bool := false
  isString : Bool := false
  isNumber : Bool := false
  isBoolean : Bool := false
  isLiteral : Bool := false
  literalValue : LiteralValue := .bool false
  isBooleanLiteral : Bool := false
  text : String := ""
  isArray : Bool := false
  arrayElement : Option Nat := none
  isUnion : Bool := false
  unionTypes : List Nat := []
  isObject : Bool := false
  properties : List Nat := []
  isAnonymous : Bool := false
  baseTypes : List Nat := []
  typeArgs : List Nat := []

/-- The immutable type graph supplied by the host: types, symbols and
declarations addressed by numeric handles. -/
structure TypeGraph where
  types : Nat → TypeNode
  syms : Nat → Sym
  decls : Nat → Decl

/-- A class declaration as seen by the locator: its symbol and base types. -/
structure ClassDecl where
  symbol : Option Nat := none
  baseTypes : List Nat := []

/-- The mutable pass state: the reference table and the identity memo
(Map from type handle to reserved index), local to one pass. -/
structure St where
  refs : List ObjectSpec
  memo : List (Nat × Nat)

/-- The fixed known-symbol registry of the source. -/
def knownSymbolPropTypes (fqn : String) : Option PropType :=
  if fqn = "React.SyntheticEvent" then some .event
  else if fqn = "React.MouseEvent" then some .event
  else if fqn = "React.ReactElement" then some .reactElement
  else if fqn = "React.ReactNode" then some .reactNode
  else none

/-- The placeholder entry pushed by storeRef to reserve a slot. -/
def placeholderRef : ObjectSpec := ⟨some "__placeholder", []⟩

/-- Lookup in the identity memo (Map.get semantics on the model's
association list). -/
def lookupMemo : List (Nat × Nat) → Nat → Option Nat
  | [], _ => none
  | (k, v) :: rest, t => if k = t then some v else lookupMemo rest t

/-- typ.getSymbol() || typ.getAliasSymbol() of the source. -/
def symOf (G : TypeGraph) (t : Nat) : Option Nat :=
  ((G.types t).symbol).or ((G.types t).aliasSymbol)

/-- getConstraintTypeFromTypeParam composed with withTypeDecl: the first
declaration of the type's (or alias') symbol, if it is a type-parameter
declaration with a constraint, gives the constraint type. -/
def getConstraintTypeFromTypeParamF (G : TypeGraph) (t : Nat) : Option Nat :=
  match symOf G t with
  | none => none
  | some sid =>
    match (G.syms sid).decls.head? with
    | none => none
    | some d =>
      if (G.decls d).isTypeParamDecl then (G.decls d).constraint else none

mutual

/-- storeRef of the source: memo hit returns the assigned index unchanged;
otherwise reserve the next index with a placeholder and record the identity
before classifying the members, then patch the reserved slot. -/
def storeRefF (G : TypeGraph) (f : Nat) (t : Nat) (s : St) :
    Except String (Nat × St) :=
  match f with
  | 0 => .error "out of fuel"
  | f + 1 =>
    match lookupMemo s.memo t with
    | some i => .ok (i, s)
    | none =>
      let ndx := s.refs.length
      let s1 : St := ⟨s.refs ++ [placeholderRef], (t, ndx) :: s.memo⟩
      match (G.types t).symbol with
      | none => .error "storeRef: getSymbolOrThrow"
      | some sid =>
        let refn := (G.syms sid).decls.head?
        match membersF G f (G.types t).properties refn s1 with
        | .error e => .error e
        | .ok (members, s2) =>
          let nm := if (G.types t).isAnonymous then none
                    else some (G.syms sid).name
          .ok (ndx, ⟨s2.refs.set ndx ⟨nm, members⟩, s2.memo⟩)
termination_by structural f

/-- The member map of storeRef: typ.getProperties().map(propertyToObjectMember),
threading the pass state left to right. -/
def membersF (G : TypeGraph) (f : Nat) (ps : List Nat) (refn : Option Nat)
    (s : St) : Except String (List ObjectMember × St) :=
  match f with
  | 0 => .error "out of fuel"
  | f + 1 =>
    match ps with
    | [] => .ok ([], s)
    | p :: rest =>
      match memberF G f p refn s with
      | .error e => .error e
      | .ok (m, s1) =>
        match membersF G f rest refn s1 with
        | .error e => .error e
        | .ok (ms, s2) => .ok (m :: ms, s2)
termination_by structural f

/-- propertyToObjectMember of the source: the property's type at the
reference declaration, classified into an ObjectMember.  A missing
reference declaration makes getTypeAtLocation fail. -/
def memberF (G : TypeGraph) (f : Nat) (p : Nat) (refn : Option Nat)
    (s : St) : Except String (ObjectMember × St) :=
  match f with
  | 0 => .error "out of fuel"
  | f + 1 =>
    match refn with
    | none => .error "getTypeAtLocation: reference undefined"
    | some r =>
      match typeToPropSpecF G f ((G.syms p).typeAt r) refn s with
      | .error e => .error e
      | .ok (sp, s1) => .ok (⟨(G.syms p).name, sp.isNullable, sp.propType⟩, s1)
termination_by structural f

/-- typeToPropSpec of the source.  The symbol is read from the original
(possibly nullable) type; then the nullability flag is recorded and the
type unwrapped; the known-symbol lookup and the (eagerly evaluated)
callable conversion use that original symbol, and the structural chain
runs on the unwrapped type. -/
def typeToPropSpecF (G : TypeGraph) (f : Nat) (t : Nat) (refn : Option Nat)
    (s : St) : Except String (PropSpec × St) :=
  match f with
  | 0 => .error "out of fuel"
  | f + 1 =>
    let symO := symOf G t
    let isNb := (G.types t).isNullable
    let t' := if isNb then (G.types t).nonNullable else t
    let known : Option PropType :=
      match symO with
      | none => none
      | some sid => knownSymbolPropTypes (G.syms sid).fqn
    match fnSymF G f symO refn s with
    | .error e => .error e
    | .ok (fnO, s1) =>
      match known with
      | some k => .ok (⟨k, isNb⟩, s1)
      | none =>
        match fnO with
        | some fp => .ok (⟨fp, isNb⟩, s1)
        | none =>
          match structuralF G f t' refn s1 with
          | .error e => .error e
          | .ok (pt, s2) => .ok (⟨pt, isNb⟩, s2)
termination_by structural f

/-- symbolToFunctionPropType of the source: when the symbol's first
declaration is a signatured declaration, classify every parameter type
(substituting a type-parameter constraint when present) and the return
type into a fn variant; otherwise produce nothing. -/
def fnSymF (G : TypeGraph) (f : Nat) (symO : Option Nat) (refn : Option Nat)
    (s : St) : Except String (Option PropType × St) :=
  match f with
  | 0 => .error "out of fuel"
  | f + 1 =>
    match symO with
    | none => .ok (none, s)
    | some sid =>
      match (G.syms sid).decls.head? with
      | none => .ok (none, s)
      | some d =>
        if (G.decls d).isSignatured then
          match paramsF G f (G.decls d).params refn s with
          | .error e => .error e
          | .ok (args, s1) =>
            match typeToPropSpecF G f (G.decls d).returnType refn s1 with
            | .error e => .error e
            | .ok (ret, s2) => .ok (some (.fn args ret), s2)
        else .ok (none, s)
termination_by structural f

/-- The parameter map of symbolToFunctionPropType, threading state. -/
def paramsF (G : TypeGraph) (f : Nat) (ps : List Nat) (refn : Option Nat)
    (s : St) : Except String (List PropSpec × St) :=
  match f with
  | 0 => .error "out of fuel"
  | f + 1 =>
    match ps with
    | [] => .ok ([], s)
    | p :: rest =>
      let pt := match getConstraintTypeFromTypeParamF G p with
        | some c => c
        | none => p
      match typeToPropSpecF G f pt refn s with
      | .error e => .error e
      | .ok (sp, s1) =>
        match paramsF G f rest refn s1 with
        | .error e => .error e
        | .ok (sps, s2) => .ok (sp :: sps, s2)
termination_by structural f

/-- The structural branch chain of typeToPropSpec, run on the unwrapped
type: void-like, string, number, boolean, literal, boolean literal,
array, union, object (via storeRef), then the any fallback. -/
def structuralF (G : TypeGraph) (f : Nat) (t : Nat) (refn : Option Nat)
    (s : St) : Except String (PropType × St) :=
  match f with
  | 0 => .error "out of fuel"
  | f + 1 =>
    let tn := G.types t
    if tn.isVoidLike then .ok (.void, s)
    else if tn.isString then .ok (.string, s)
    else if tn.isNumber then .ok (.number, s)
    else if tn.isBoolean then .ok (.boolean, s)
    else if tn.isLiteral then .ok (.literal tn.literalValue, s)
    else if tn.isBooleanLiteral then .ok (.literal (.bool (tn.text = "true")), s)
    else if tn.isArray then
      match tn.arrayElement with
      | none => .error "getArrayElementTypeOrThrow"
      | some e =>
        match typeToPropSpecF G f e refn s with
        | .error err => .error err
        | .ok (sp, s1) => .ok (.array sp.propType, s1)
    else if tn.isUnion then
      match unionF G f tn.unionTypes refn s with
      | .error err => .error err
      | .ok (opts, s1) => .ok (.union opts, s1)
    else if tn.isObject then
      match storeRefF G f t s with
      | .error err => .error err
      | .ok (i, s1) => .ok (.ref i, s1)
    else .ok (.any, s)
termination_by structural f

/-- The union-constituent map of typeToPropSpec, threading state and
keeping the declared order. -/
def unionF (G : TypeGraph) (f : Nat) (ts : List Nat) (refn : Option Nat)
    (s : St) : Except String (List PropType × St) :=
  match f with
  | 0 => .error "out of fuel"
  | f + 1 =>
    match ts with
    | [] => .ok ([], s)
    | t :: rest =>
      match typeToPropSpecF G f t refn s with
      | .error e => .error e
      | .ok (sp, s1) =>
        match unionF G f rest refn s1 with
        | .error e => .error e
        | .ok (opts, s2) => .ok (sp.propType :: opts, s2)
termination_by structural f

end

/-- isTypeReactComponent of the source: with a symbol, only the fully
qualified name is compared against the marker; without a symbol, the base
types are searched recursively. -/
def isTypeReactComponentF (G : TypeGraph) (f : Nat) (t : Nat) : Bool :=
  match f with
  | 0 => false
  | f + 1 =>
    match (G.types t).symbol with
    | some sid => (G.syms sid).fqn = "React.Component"
    | none => (G.types t).baseTypes.any (fun b => isTypeReactComponentF G f b)

/-- findComponentsInClass of the source: find a base type satisfying the
marker predicate, take its first type argument, classify it through
storeRef and record a ComponentSpec. -/
def findComponentsInClassF (G : TypeGraph) (f : Nat) (c : ClassDecl)
    (comps : List ComponentSpec) (s : St) :
    Except String (List ComponentSpec × St) :=
  match c.baseTypes.find? (fun b => isTypeReactComponentF G f b) with
  | none => .ok (comps, s)
  | some b =>
    match (G.types b).typeArgs.head? with
    | none => .ok (comps, s)
    | some pArg =>
      match storeRefF G f pArg s with
      | .error e => .error e
      | .ok (ndx, s1) =>
        match c.symbol with
        | none => .error "findComponentsInClass: getSymbolOrThrow"
        | some cs => .ok (comps ++ [⟨(G.syms cs).name, ndx⟩], s1)

/-- The forEach over the file's exported class declarations. -/
def runClassesF (G : TypeGraph) (f : Nat) :
    List ClassDecl → List ComponentSpec → St →
    Except String (List ComponentSpec × St)
  | [], comps, s => .ok (comps, s)
  | c :: cs, comps, s =>
    match findComponentsInClassF G f c comps s with
    | .error e => .error e
    | .ok (comps1, s1) => runClassesF G f cs comps1 s1

/-- findComponentsInSourceFile of the source: fresh accumulators, one pass
over the class declarations, assembling the FinderResult.  The mechanics of
obtaining the file's class declaration list are outside the embedded core;
the list is an input. -/
def findComponentsInSourceFileF (G : TypeGraph) (classes : List ClassDecl)
    (f : Nat) : Except String FinderResult :=
  match runClassesF G f classes [] ⟨[], []⟩ with
  | .error e => .error e
  | .ok (comps, s) => .ok ⟨comps, s.refs⟩

/-! Collectors over the produced schemas: the reference-table indices
mentioned by a PropType (through union, array and fn payloads), and the
indices mentioned specifically by a "partial" (partRef) variant. -/

mutual

/-- All ref and partRef indices occurring anywhere in a PropType. -/
def ptRefIdxs : PropType → List Nat
  | .any | .void | .string | .number | .boolean
  | .reactElement | .reactNode | .event | .literal _ => []
  | .union opts => listRefIdxs opts
  | .ref i => [i]
  | .partRef i => [i]
  | .array e => ptRefIdxs e
  | .fn args ret => specListRefIdxs args ++ specRefIdxs ret

/-- All ref and partRef indices occurring anywhere in a PropSpec. -/
def specRefIdxs : PropSpec → List Nat
  | .mk p _ => ptRefIdxs p

/-- All ref and partRef indices in a list of PropTypes. -/
def listRefIdxs : List PropType → List Nat
  | [] => []
  | p :: ps => ptRefIdxs p ++ listRefIdxs ps

/-- All ref and partRef indices in a list of PropSpecs. -/
def specListRefIdxs : List PropSpec → List Nat
  | [] => []
  | sp :: sps => specRefIdxs sp ++ specListRefIdxs sps

end

mutual

/-- The indices of the partRef variants occurring anywhere in a PropType. -/
def ptPartIdxs : PropType → List Nat
  | .any | .void | .string | .number | .boolean
  | .reactElement | .reactNode | .event | .literal _ => []
  | .union opts => listPartIdxs opts
  | .ref _ => []
  | .partRef i => [i]
  | .array e => ptPartIdxs e
  | .fn args ret => specListPartIdxs args ++ specPartIdxs ret

/-- The partRef indices occurring anywhere in a PropSpec. -/
def specPartIdxs : PropSpec → List Nat
  | .mk p _ => ptPartIdxs p

/-- The partRef indices in a list of PropTypes. -/
def listPartIdxs : List PropType → List Nat
  | [] => []
  | p :: ps => ptPartIdxs p ++ listPartIdxs ps

/-- The partRef indices in a list of PropSpecs. -/
def specListPartIdxs : List PropSpec → List Nat
  | [] => []
  | sp :: sps => specPartIdxs sp ++ specListPartIdxs sps

end

/-- All ref and partRef indices in a member list of an ObjectSpec. -/
def membersRefIdxs : List ObjectMember → List Nat
  | [] => []
  | m :: ms => ptRefIdxs m.propType ++ membersRefIdxs ms

/-- All partRef indices in a member list of an ObjectSpec. -/
def membersPartIdxs : List ObjectMember → List Nat
  | [] => []
  | m :: ms => ptPartIdxs m.propType ++ membersPartIdxs ms

/-- Every index of the list lies below the bound. -/
def idxB (n : Nat) (l : List Nat) : Prop :=
  ∀ i ∈ l, i < n

/-- A pass state is valid when every index stored in a table entry and
every index recorded in the memo points below the current table length. -/
def validSt (s : St) : Prop :=
  (∀ e ∈ s.refs, ∀ i ∈ membersRefIdxs e.members, i < s.refs.length) ∧
  (∀ k v, lookupMemo s.memo k = some v → v < s.refs.length)

/-- A FinderResult is valid when every component index and every ref or
partRef index stored anywhere in the table points into the table. -/
def validFinderResult (r : FinderResult) : Prop :=
  (∀ c ∈ r.components, c.propsRefIndex < r.refs.length) ∧
  (∀ e ∈ r.refs, ∀ i ∈ membersRefIdxs e.members, i < r.refs.length)

/-- No entry of the reference table mentions a partRef variant. -/
def refsNoPart (s : St) : Prop :=
  ∀ e ∈ s.refs, membersPartIdxs e.members = []

/-- Memo extension: every binding of the first memo is a binding of the
second. -/
def memoLe (m1 m2 : List (Nat × Nat)) : Prop :=
  ∀ k v, lookupMemo m1 k = some v → lookupMemo m2 k = some v

/-- Index i currently holds the placeholder entry. -/
def isPh (s : St) (i : Nat) : Prop :=
  s.refs[i]? = some placeholderRef

/-- Boolean test for the placeholder entry. -/
def isPlaceholderB (e : ObjectSpec) : Bool :=
  (e.name == some "__placeholder") && e.members.isEmpty

/-! Concrete type graphs, faithful to the host's answers on the scenarios
of the claims.  Handles not listed fall to inert defaults. -/

/-- The direct self-referential record, type Foo = \x7b foo?: Foo \x7d, with
the record name, the member name and the anonymity flag as parameters.
Node 0 is Foo (an object type whose only property has type node 1),
node 1 is Foo | undefined (nullable, unwrapping to node 0), node 2 is
undefined.  Symbol 0 is Foo's symbol (declaration 0, a non-signatured
type declaration); symbol 1 is the property symbol, whose type at any
declaration is node 1. -/
def selfRefG (recN memN : String) (anon : Bool) : TypeGraph where
  types := fun t =>
    match t with
    | 0 => { symbol := some 0, isObject := true, properties := [1],
             isAnonymous := anon }
    | 1 => { isNullable := true, nonNullable := 0, isUnion := true,
             unionTypes := [0, 2] }
    | _ => { isVoidLike := true }
  syms := fun i =>
    match i with
    | 0 => ⟨recN, recN, [0], fun _ => 0⟩
    | _ => ⟨memN, memN, [], fun _ => 1⟩
  decls := fun _ => {}

/-- An indirect cycle through an intermediate record: type Foo = \x7b a: Bar \x7d,
type Bar = \x7b b: Foo \x7d.  Nodes 0 and 1 are Foo and Bar; symbols 2 and 3 are
the property symbols a (type node 1) and b (type node 0). -/
def indirectG (fooN barN aN bN : String) : TypeGraph where
  types := fun t =>
    match t with
    | 0 => { symbol := some 0, isObject := true, properties := [2] }
    | _ => { symbol := some 1, isObject := true, properties := [3] }
  syms := fun i =>
    match i with
    | 0 => ⟨fooN, fooN, [0], fun _ => 0⟩
    | 1 => ⟨barN, barN, [0], fun _ => 0⟩
    | 2 => ⟨aN, aN, [], fun _ => 1⟩
    | _ => ⟨bN, bN, [], fun _ => 0⟩
  decls := fun _ => {}

/-- Two sibling classes A and B, both extending React.Component bound to
the identical Props type-graph node: node 0 is the base type (marker
symbol, first type argument node 1), node 1 is interface Props with one
property foo of type node 2 (string). -/
def sharedPropsG : TypeGraph where
  types := fun t =>
    match t with
    | 0 => { symbol := some 0, typeArgs := [1] }
    | 1 => { symbol := some 1, isObject := true, properties := [2] }
    | _ => { isString := true }
  syms := fun i =>
    match i with
    | 0 => ⟨"React.Component", "Component", [], fun _ => 0⟩
    | 1 => ⟨"Props", "Props", [0], fun _ => 0⟩
    | 2 => ⟨"foo", "foo", [], fun _ => 2⟩
    | 3 => ⟨"A", "A", [], fun _ => 0⟩
    | _ => ⟨"B", "B", [], fun _ => 0⟩
  decls := fun _ => {}

/-- The exported classes of the shared-props file. -/
def sharedPropsClasses : List ClassDecl :=
  [⟨some 3, [0]⟩, ⟨some 4, [0]⟩]

/-- An optional known-symbol property, ev?: React.SyntheticEvent.
Node 0 is the SyntheticEvent interface type (symbol 0, one boolean
property bubbles for realism), node 1 is SyntheticEvent | undefined
(the declared type of the optional property: a union type, which carries
no symbol and no alias symbol), node 2 is boolean, node 3 is undefined. -/
def optEventG : TypeGraph where
  types := fun t =>
    match t with
    | 0 => { symbol := some 0, isObject := true, properties := [1] }
    | 1 => { isNullable := true, nonNullable := 0, isUnion := true,
             unionTypes := [0, 3] }
    | 2 => { isBoolean := true }
    | _ => { isVoidLike := true }
  syms := fun i =>
    match i with
    | 0 => ⟨"React.SyntheticEvent", "SyntheticEvent", [0], fun _ => 0⟩
    | _ => ⟨"bubbles", "bubbles", [], fun _ => 2⟩
  decls := fun _ => {}

/-- An optional plain property, s?: string: node 0 is string, node 1 is
string | undefined, node 2 is undefined. -/
def optStrG : TypeGraph where
  types := fun t =>
    match t with
    | 0 => { isString := true }
    | 1 => { isNullable := true, nonNullable := 0, isUnion := true,
             unionTypes := [0, 2] }
    | _ => { isVoidLike := true }
  syms := fun _ => ⟨"", "", [], fun _ => 0⟩
  decls := fun _ => {}

/-- An optional callback property, cb?: () =&gt; void.  Node 0 is the function
type (an anonymous object type whose symbol's declaration 0 is a signatured
declaration with no parameters returning node 2), node 1 is the optional
wrapper (() =&gt; void) | undefined which carries no symbol, node 2 is void,
node 3 is undefined. -/
def optFnG : TypeGraph where
  types := fun t =>
    match t with
    | 0 => { symbol := some 0, isObject := true, properties := [],
             isAnonymous := true }
    | 1 => { isNullable := true, nonNullable := 0, isUnion := true,
             unionTypes := [0, 3] }
    | _ => { isVoidLike := true }
  syms := fun _ => ⟨"__type", "__type", [0], fun _ => 0⟩
  decls := fun _ => { isSignatured := true, params := [], returnType := 2 }

/-- The nullable void type void | null: node 0 is void, node 1 is the
union void | null (nullable; its non-nullable form is node 0), node 2 is
null. -/
def voidNullG : TypeGraph where
  types := fun t =>
    match t with
    | 0 => { isVoidLike := true }
    | 1 => { isNullable := true, nonNullable := 0, isUnion := true,
             unionTypes := [0, 2] }
    | _ => {}
  syms := fun _ => ⟨"", "", [], fun _ => 0⟩
  decls := fun _ => {}

/-- A file with one component whose Props contain a tuple member and an
array member: class TestC extends React.Component with Props =
\x7b pair: [string, boolean], names: string[] \x7d.  Node 4 is the tuple type:
in the host a tuple type reference carries no symbol (and ts-morph's
isArray answers false because it requires an Array symbol), while its
flags still say object.  Node 5 is string[], an Array reference with
symbol Array and element node 2. -/
def tupleG : TypeGraph where
  types := fun t =>
    match t with
    | 0 => { symbol := some 0, typeArgs := [1] }
    | 1 => { symbol := some 1, isObject := true, properties := [2, 3] }
    | 2 => { isString := true }
    | 3 => { isBoolean := true }
    | 4 => { isObject := true }
    | _ => { symbol := some 4, isArray := true, arrayElement := some 2,
             isObject := true, typeArgs := [2] }
  syms := fun i =>
    match i with
    | 0 => ⟨"React.Component", "Component", [], fun _ => 0⟩
    | 1 => ⟨"Props", "Props", [0], fun _ => 0⟩
    | 2 => ⟨"pair", "pair", [], fun _ => 4⟩
    | 3 => ⟨"names", "names", [], fun _ => 5⟩
    | 4 => ⟨"Array", "Array", [0], fun _ => 0⟩
    | _ => ⟨"TestC", "TestC", [], fun _ => 0⟩
  decls := fun _ => {}

/-- The exported classes of the tuple file. -/
def tupleClasses : List ClassDecl :=
  [⟨some 5, [0]⟩]

/-- A class C whose marker is found only after following two levels of
base types, the intermediate base types having no symbol information:
node 1 (C's base type, no symbol, first type argument node 4) has base
node 2 (no symbol), which has base node 3, the marker React.Component.
Node 4 is interface Props with one string property foo (node 5). -/
def chainG : TypeGraph where
  types := fun t =>
    match t with
    | 1 => { baseTypes := [2], typeArgs := [4] }
    | 2 => { baseTypes := [3] }
    | 3 => { symbol := some 0 }
    | 4 => { symbol := some 1, isObject := true, properties := [2] }
    | _ => { isString := true }
  syms := fun i =>
    match i with
    | 0 => ⟨"React.Component", "Component", [], fun _ => 0⟩
    | 1 => ⟨"Props", "Props", [0], fun _ => 0⟩
    | 2 => ⟨"foo", "foo", [], fun _ => 5⟩
    | _ => ⟨"C", "C", [], fun _ => 0⟩
  decls := fun _ => {}

/-- The exported classes of the two-level chain file. -/
def chainClasses : List ClassDecl :=
  [⟨some 3, [1]⟩]

/-- A class D extending an intermediate class that itself extends
React.Component: D's base type node 1 carries the symbol of class
Intermediate (fully qualified name "Intermediate"), whose own base type
node 2 is the marker.  The class therefore derives from the marker
transitively, through a base type that has symbol information. -/
def chainSymG : TypeGraph where
  types := fun t =>
    match t with
    | 1 => { symbol := some 1, baseTypes := [2], typeArgs := [3] }
    | 2 => { symbol := some 0 }
    | 3 => { symbol := some 2, isObject := true, properties := [3] }
    | _ => { isString := true }
  syms := fun i =>
    match i with
    | 0 => ⟨"React.Component", "Component", [], fun _ => 0⟩
    | 1 => ⟨"Intermediate", "Intermediate", [0], fun _ => 0⟩
    | 2 => ⟨"Props", "Props", [0], fun _ => 0⟩
    | 3 => ⟨"foo", "foo", [], fun _ => 4⟩
    | _ => ⟨"D", "D", [], fun _ => 0⟩
  decls := fun _ => {}

/-- The exported classes of the symboled-intermediate file. -/
def chainSymClasses : List ClassDecl :=
  [⟨some 4, [1]⟩]

/-! General lemmas about the pass state evolution. -/

theorem memoLe_refl (m : List (Nat × Nat)) : memoLe m m := fun _ _ h => h

theorem memoLe_trans {a b c : List (Nat × Nat)} (h1 : memoLe a b)
    (h2 : memoLe b c) : memoLe a c :=
  fun k v h => h2 k v (h1 k v h)

theorem lookupMemo_cons_of_lookup_none {m : List (Nat × Nat)} {k t n v : Nat}
    (ht : lookupMemo m t = none) (hk : lookupMemo m k = some v) :
    lookupMemo ((t, n) :: m) k = some v := by
  have hne : t ≠ k := by
    rintro rfl
    rw [ht] at hk
    exact Option.noConfusion hk
  simp only [lookupMemo, if_neg hne]
  exact hk

theorem lookupMemo_cons_self (m : List (Nat × Nat)) (t n : Nat) :
    lookupMemo ((t, n) :: m) t = some n := by
  simp [lookupMemo]

/-- Every interpreter function only appends to the reference table and only
adds bindings to the identity memo. -/
theorem growthAll (G : TypeGraph) : ∀ f : Nat,
    (∀ t s i s', storeRefF G f t s = .ok (i, s') →
      s.refs.length ≤ s'.refs.length ∧ memoLe s.memo s'.memo) ∧
    (∀ ps refn s ms s', membersF G f ps refn s = .ok (ms, s') →
      s.refs.length ≤ s'.refs.length ∧ memoLe s.memo s'.memo) ∧
    (∀ p refn s m s', memberF G f p refn s = .ok (m, s') →
      s.refs.length ≤ s'.refs.length ∧ memoLe s.memo s'.memo) ∧
    (∀ t refn s sp s', typeToPropSpecF G f t refn s = .ok (sp, s') →
      s.refs.length ≤ s'.refs.length ∧ memoLe s.memo s'.memo) ∧
    (∀ symO refn s o s', fnSymF G f symO refn s = .ok (o, s') →
      s.refs.length ≤ s'.refs.length ∧ memoLe s.memo s'.memo) ∧
    (∀ ps refn s args s', paramsF G f ps refn s = .ok (args, s') →
      s.refs.length ≤ s'.refs.length ∧ memoLe s.memo s'.memo) ∧
    (∀ t refn s pt s', structuralF G f t refn s = .ok (pt, s') →
      s.refs.length ≤ s'.refs.length ∧ memoLe s.memo s'.memo) ∧
    (∀ ts refn s os s', unionF G f ts refn s = .ok (os, s') →
      s.refs.length ≤ s'.refs.length ∧ memoLe s.memo s'.memo) := by
  intro f
  induction f with
  | zero =>
    refine ⟨?_, ?_, ?_, ?_, ?_, ?_, ?_, ?_⟩ <;>
      (intros; rename_i h; exact Except.noConfusion h)
  | succ f ih =>
    obtain ⟨ihS, ihMs, ihM, ihT, ihF, ihP, ihSt, ihU⟩ := ih
    refine ⟨?_, ?_, ?_, ?_, ?_, ?_, ?_, ?_⟩
    · -- storeRefF
      intro t s i s' h
      simp only [storeRefF] at h
      split at h
      · simp only [Except.ok.injEq, Prod.mk.injEq] at h
        obtain ⟨rfl, rfl⟩ := h
        exact ⟨le_refl _, memoLe_refl _⟩
      · rename_i hm
        split at h
        · exact Except.noConfusion h
        · rename_i sid hsid
          split at h
          · exact Except.noConfusion h
          · rename_i members s2 hmem
            simp only [Except.ok.injEq, Prod.mk.injEq] at h
            obtain ⟨rfl, rfl⟩ := h
            obtain ⟨hlen, hmemo⟩ := ihMs _ _ _ _ _ hmem
            constructor
            · simp only [List.length_set]
              simp only [List.length_append, List.length_singleton] at hlen
              omega
            · intro k v hk
              exact hmemo k v (lookupMemo_cons_of_lookup_none hm hk)
    · -- membersF
      intro ps refn s ms s' h
      simp only [membersF] at h
      split at h
      · simp only [Except.ok.injEq, Prod.mk.injEq] at h
        obtain ⟨rfl, rfl⟩ := h
        exact ⟨le_refl _, memoLe_refl _⟩
      · split at h
        · exact Except.noConfusion h
        · rename_i m1 s1 h1
          split at h
          · exact Except.noConfusion h
          · rename_i ms2 s2 h2
            simp only [Except.ok.injEq, Prod.mk.injEq] at h
            obtain ⟨rfl, rfl⟩ := h
            obtain ⟨l1, m1'⟩ := ihM _ _ _ _ _ h1
            obtain ⟨l2, m2'⟩ := ihMs _ _ _ _ _ h2
            exact ⟨le_trans l1 l2, memoLe_trans m1' m2'⟩
    · -- memberF
      intro p refn s m s' h
      simp only [memberF] at h
      split at h
      · exact Except.noConfusion h
      · split at h
        · exact Except.noConfusion h
        · rename_i sp s1 h1
          simp only [Except.ok.injEq, Prod.mk.injEq] at h
          obtain ⟨rfl, rfl⟩ := h
          exact ihT _ _ _ _ _ h1
    · -- typeToPropSpecF
      intro t refn s sp s' h
      simp only [typeToPropSpecF] at h
      split at h
      · exact Except.noConfusion h
      · rename_i fnO s1 h1
        split at h
        · simp only [Except.ok.injEq, Prod.mk.injEq] at h
          obtain ⟨rfl, rfl⟩ := h
          exact ihF _ _ _ _ _ h1
        · split at h
          · simp only [Except.ok.injEq, Prod.mk.injEq] at h
            obtain ⟨rfl, rfl⟩ := h
            exact ihF _ _ _ _ _ h1
          · split at h
            · exact Except.noConfusion h
            · rename_i pt s2 h2
              simp only [Except.ok.injEq, Prod.mk.injEq] at h
              obtain ⟨rfl, rfl⟩ := h
              obtain ⟨l1, m1⟩ := ihF _ _ _ _ _ h1
              obtain ⟨l2, m2⟩ := ihSt _ _ _ _ _ h2
              exact ⟨le_trans l1 l2, memoLe_trans m1 m2⟩
    · -- fnSymF
      intro symO refn s o s' h
      simp only [fnSymF] at h
      split at h
      · simp only [Except.ok.injEq, Prod.mk.injEq] at h
        obtain ⟨rfl, rfl⟩ := h
        exact ⟨le_refl _, memoLe_refl _⟩
      · split at h
        · simp only [Except.ok.injEq, Prod.mk.injEq] at h
          obtain ⟨rfl, rfl⟩ := h
          exact ⟨le_refl _, memoLe_refl _⟩
        · split at h
          · split at h
            · exact Except.noConfusion h
            · rename_i args s1 h1
              split at h
              · exact Except.noConfusion h
              · rename_i ret s2 h2
                simp only [Except.ok.injEq, Prod.mk.injEq] at h
                obtain ⟨rfl, rfl⟩ := h
                obtain ⟨l1, m1⟩ := ihP _ _ _ _ _ h1
                obtain ⟨l2, m2⟩ := ihT _ _ _ _ _ h2
                exact ⟨le_trans l1 l2, memoLe_trans m1 m2⟩
          · simp only [Except.ok.injEq, Prod.mk.injEq] at h
            obtain ⟨rfl, rfl⟩ := h
            exact ⟨le_refl _, memoLe_refl _⟩
    · -- paramsF
      intro ps refn s args s' h
      simp only [paramsF] at h
      split at h
      · simp only [Except.ok.injEq, Prod.mk.injEq] at h
        obtain ⟨rfl, rfl⟩ := h
        exact ⟨le_refl _, memoLe_refl _⟩
      · split at h
        · exact Except.noConfusion h
        · rename_i sp s1 h1
          split at h
          · exact Except.noConfusion h
          · rename_i sps s2 h2
            simp only [Except.ok.injEq, Prod.mk.injEq] at h
            obtain ⟨rfl, rfl⟩ := h
            obtain ⟨l1, m1⟩ := ihT _ _ _ _ _ h1
            obtain ⟨l2, m2⟩ := ihP _ _ _ _ _ h2
            exact ⟨le_trans l1 l2, memoLe_trans m1 m2⟩
    · -- structuralF
      intro t refn s pt s' h
      simp only [structuralF] at h
      split at h
      · simp only [Except.ok.injEq, Prod.mk.injEq] at h
        obtain ⟨rfl, rfl⟩ := h
        exact ⟨le_refl _, memoLe_refl _⟩
      · split at h
        · simp only [Except.ok.injEq, Prod.mk.injEq] at h
          obtain ⟨rfl, rfl⟩ := h
          exact ⟨le_refl _, memoLe_refl _⟩
        · split at h
          · simp only [Except.ok.injEq, Prod.mk.injEq] at h
            obtain ⟨rfl, rfl⟩ := h
            exact ⟨le_refl _, memoLe_refl _⟩
          · split at h
            · simp only [Except.ok.injEq, Prod.mk.injEq] at h
              obtain ⟨rfl, rfl⟩ := h
              exact ⟨le_refl _, memoLe_refl _⟩
            · split at h
              · simp only [Except.ok.injEq, Prod.mk.injEq] at h
                obtain ⟨rfl, rfl⟩ := h
                exact ⟨le_refl _, memoLe_refl _⟩
              · split at h
                · simp only [Except.ok.injEq, Prod.mk.injEq] at h
                  obtain ⟨rfl, rfl⟩ := h
                  exact ⟨le_refl _, memoLe_refl _⟩
                · split at h
                  · split at h
                    · exact Except.noConfusion h
                    · split at h
                      · exact Except.noConfusion h
                      · rename_i sp s1 h1
                        simp only [Except.ok.injEq, Prod.mk.injEq] at h
                        obtain ⟨rfl, rfl⟩ := h
                        exact ihT _ _ _ _ _ h1
                  · split at h
                    · split at h
                      · exact Except.noConfusion h
                      · rename_i os s1 h1
                        simp only [Except.ok.injEq, Prod.mk.injEq] at h
                        obtain ⟨rfl, rfl⟩ := h
                        exact ihU _ _ _ _ _ h1
                    · split at h
                      · split at h
                        · exact Except.noConfusion h
                        · rename_i i s1 h1
                          simp only [Except.ok.injEq, Prod.mk.injEq] at h
                          obtain ⟨rfl, rfl⟩ := h
                          exact ihS _ _ _ _ h1
                      · simp only [Except.ok.injEq, Prod.mk.injEq] at h
                        obtain ⟨rfl, rfl⟩ := h
                        exact ⟨le_refl _, memoLe_refl _⟩
    · -- unionF
      intro ts refn s os s' h
      simp only [unionF] at h
      split at h
      · simp only [Except.ok.injEq, Prod.mk.injEq] at h
        obtain ⟨rfl, rfl⟩ := h
        exact ⟨le_refl _, memoLe_refl _⟩
      · split at h
        · exact Except.noConfusion h
        · rename_i sp s1 h1
          split at h
          · exact Except.noConfusion h
          · rename_i os2 s2 h2
            simp only [Except.ok.injEq, Prod.mk.injEq] at h
            obtain ⟨rfl, rfl⟩ := h
            obtain ⟨l1, m1⟩ := ihT _ _ _ _ _ h1
            obtain ⟨l2, m2⟩ := ihU _ _ _ _ _ h2
            exact ⟨le_trans l1 l2, memoLe_trans m1 m2⟩

/-- A successful storeRef leaves its type bound to the returned index in
the identity memo. -/
theorem storeRefF_memo_out (G : TypeGraph) (f t : Nat) (s : St) (i : Nat)
    (s' : St) (h : storeRefF G f t s = .ok (i, s')) :
    lookupMemo s'.memo t = some i := by
  match f with
  | 0 => exact Except.noConfusion h
  | f + 1 =>
    simp only [storeRefF] at h
    split at h
    · rename_i j hm
      simp only [Except.ok.injEq, Prod.mk.injEq] at h
      obtain ⟨rfl, rfl⟩ := h
      exact hm
    · rename_i hm
      split at h
      · exact Except.noConfusion h
      · rename_i sid hsid
        split at h
        · exact Except.noConfusion h
        · rename_i members s2 hmem
          simp only [Except.ok.injEq, Prod.mk.injEq] at h
          obtain ⟨rfl, rfl⟩ := h
          have hmono := ((growthAll G f).2.1 _ _ _ _ _ hmem).2
          exact hmono t s.refs.length (lookupMemo_cons_self s.memo t s.refs.length)

/-- Every registered known-symbol variant is free of partRef. -/
theorem knownSymbolPropTypes_noPart (fqn : String) (k : PropType)
    (h : knownSymbolPropTypes fqn = some k) : ptPartIdxs k = [] := by
  simp only [knownSymbolPropTypes] at h
  split at h
  · cases h; rfl
  · split at h
    · cases h; rfl
    · split at h
      · cases h; rfl
      · split at h
        · cases h; rfl
        · exact Option.noConfusion h

/-- No interpreter function ever constructs a partRef variant: every
produced PropType, PropSpec and table entry is free of the source's
"partial" kind, and the table keeps that property. -/
theorem noPartAll (G : TypeGraph) : ∀ f : Nat,
    (∀ t s i s', storeRefF G f t s = .ok (i, s') →
      refsNoPart s → refsNoPart s') ∧
    (∀ ps refn s ms s', membersF G f ps refn s = .ok (ms, s') →
      refsNoPart s → refsNoPart s' ∧ membersPartIdxs ms = []) ∧
    (∀ p refn s m s', memberF G f p refn s = .ok (m, s') →
      refsNoPart s → refsNoPart s' ∧ ptPartIdxs m.propType = []) ∧
    (∀ t refn s sp s', typeToPropSpecF G f t refn s = .ok (sp, s') →
      refsNoPart s → refsNoPart s' ∧ specPartIdxs sp = []) ∧
    (∀ symO refn s o s', fnSymF G f symO refn s = .ok (o, s') →
      refsNoPart s → refsNoPart s' ∧ ∀ p, o = some p → ptPartIdxs p = []) ∧
    (∀ ps refn s args s', paramsF G f ps refn s = .ok (args, s') →
      refsNoPart s → refsNoPart s' ∧ specListPartIdxs args = []) ∧
    (∀ t refn s pt s', structuralF G f t refn s = .ok (pt, s') →
      refsNoPart s → refsNoPart s' ∧ ptPartIdxs pt = []) ∧
    (∀ ts refn s os s', unionF G f ts refn s = .ok (os, s') →
      refsNoPart s → refsNoPart s' ∧ listPartIdxs os = []) := by
  intro f
  induction f with
  | zero =>
    refine ⟨?_, ?_, ?_, ?_, ?_, ?_, ?_, ?_⟩ <;>
      (intros; rename_i h _; exact Except.noConfusion h)
  | succ f ih =>
    obtain ⟨ihS, ihMs, ihM, ihT, ihF, ihP, ihSt, ihU⟩ := ih
    refine ⟨?_, ?_, ?_, ?_, ?_, ?_, ?_, ?_⟩
    · -- storeRefF
      intro t s i s' h hs
      simp only [storeRefF] at h
      split at h
      · simp only [Except.ok.injEq, Prod.mk.injEq] at h
        obtain ⟨rfl, rfl⟩ := h
        exact hs
      · rename_i hm
        split at h
        · exact Except.noConfusion h
        · rename_i sid hsid
          split at h
          · exact Except.noConfusion h
          · rename_i members s2 hmem
            simp only [Except.ok.injEq, Prod.mk.injEq] at h
            obtain ⟨rfl, rfl⟩ := h
            have hs1 : refsNoPart ⟨s.refs ++ [placeholderRef],
                (t, s.refs.length) :: s.memo⟩ := by
              intro e he
              rcases List.mem_append.mp he with he | he
              · exact hs e he
              · simp only [List.mem_singleton] at he
                subst he
                rfl
            obtain ⟨hs2, hms⟩ := ihMs _ _ _ _ _ hmem hs1
            intro e he
            rcases List.mem_or_eq_of_mem_set he with he | he
            · exact hs2 e he
            · subst he
              exact hms
    · -- membersF
      intro ps refn s ms s' h hs
      simp only [membersF] at h
      split at h
      · simp only [Except.ok.injEq, Prod.mk.injEq] at h
        obtain ⟨rfl, rfl⟩ := h
        exact ⟨hs, rfl⟩
      · split at h
        · exact Except.noConfusion h
        · rename_i m1 s1 h1
          split at h
          · exact Except.noConfusion h
          · rename_i ms2 s2 h2
            simp only [Except.ok.injEq, Prod.mk.injEq] at h
            obtain ⟨rfl, rfl⟩ := h
            obtain ⟨hs1, hp1⟩ := ihM _ _ _ _ _ h1 hs
            obtain ⟨hs2, hp2⟩ := ihMs _ _ _ _ _ h2 hs1
            exact ⟨hs2, by simp [membersPartIdxs, hp1, hp2]⟩
    · -- memberF
      intro p refn s m s' h hs
      simp only [memberF] at h
      split at h
      · exact Except.noConfusion h
      · split at h
        · exact Except.noConfusion h
        · rename_i sp s1 h1
          simp only [Except.ok.injEq, Prod.mk.injEq] at h
          obtain ⟨rfl, rfl⟩ := h
          obtain ⟨hs1, hp1⟩ := ihT _ _ _ _ _ h1 hs
          refine ⟨hs1, ?_⟩
          cases sp with
          | mk pt nb => simpa [specPartIdxs, PropSpec.propType] using hp1
    · -- typeToPropSpecF
      intro t refn s sp s' h hs
      simp only [typeToPropSpecF] at h
      split at h
      · exact Except.noConfusion h
      · rename_i fnO s1 h1
        obtain ⟨hs1, hfo⟩ := ihF _ _ _ _ _ h1 hs
        split at h
        · rename_i k hk
          simp only [Except.ok.injEq, Prod.mk.injEq] at h
          obtain ⟨rfl, rfl⟩ := h
          refine ⟨hs1, ?_⟩
          rcases hso : symOf G t with _ | sid
          · simp only [hso] at hk
            exact Option.noConfusion hk
          · simp only [hso] at hk
            simp only [specPartIdxs]
            exact knownSymbolPropTypes_noPart _ _ hk
        · split at h
          · rename_i hk2 b fp
            simp only [Except.ok.injEq, Prod.mk.injEq] at h
            obtain ⟨rfl, rfl⟩ := h
            exact ⟨hs1, by simpa [specPartIdxs] using hfo fp rfl⟩
          · split at h
            · exact Except.noConfusion h
            · rename_i pt s2 h2
              simp only [Except.ok.injEq, Prod.mk.injEq] at h
              obtain ⟨rfl, rfl⟩ := h
              obtain ⟨hs2, hp2⟩ := ihSt _ _ _ _ _ h2 hs1
              exact ⟨hs2, by simpa [specPartIdxs] using hp2⟩
    · -- fnSymF
      intro symO refn s o s' h hs
      simp only [fnSymF] at h
      split at h
      · simp only [Except.ok.injEq, Prod.mk.injEq] at h
        obtain ⟨rfl, rfl⟩ := h
        exact ⟨hs, fun p hp => Option.noConfusion hp⟩
      · split at h
        · simp only [Except.ok.injEq, Prod.mk.injEq] at h
          obtain ⟨rfl, rfl⟩ := h
          exact ⟨hs, fun p hp => Option.noConfusion hp⟩
        · split at h
          · split at h
            · exact Except.noConfusion h
            · rename_i args s1 h1
              split at h
              · exact Except.noConfusion h
              · rename_i ret s2 h2
                simp only [Except.ok.injEq, Prod.mk.injEq] at h
                obtain ⟨rfl, rfl⟩ := h
                obtain ⟨hs1, hp1⟩ := ihP _ _ _ _ _ h1 hs
                obtain ⟨hs2, hp2⟩ := ihT _ _ _ _ _ h2 hs1
                refine ⟨hs2, fun p hp => ?_⟩
                cases hp
                simp [ptPartIdxs, hp1, hp2, specPartIdxs]
          · simp only [Except.ok.injEq, Prod.mk.injEq] at h
            obtain ⟨rfl, rfl⟩ := h
            exact ⟨hs, fun p hp => Option.noConfusion hp⟩
    · -- paramsF
      intro ps refn s args s' h hs
      simp only [paramsF] at h
      split at h
      · simp only [Except.ok.injEq, Prod.mk.injEq] at h
        obtain ⟨rfl, rfl⟩ := h
        exact ⟨hs, rfl⟩
      · split at h
        · exact Except.noConfusion h
        · rename_i sp s1 h1
          split at h
          · exact Except.noConfusion h
          · rename_i sps s2 h2
            simp only [Except.ok.injEq, Prod.mk.injEq] at h
            obtain ⟨rfl, rfl⟩ := h
            obtain ⟨hs1, hp1⟩ := ihT _ _ _ _ _ h1 hs
            obtain ⟨hs2, hp2⟩ := ihP _ _ _ _ _ h2 hs1
            exact ⟨hs2, by simp [specListPartIdxs, hp1, hp2]⟩
    · -- structuralF
      intro t refn s pt s' h hs
      simp only [structuralF] at h
      split at h
      · simp only [Except.ok.injEq, Prod.mk.injEq] at h
        obtain ⟨rfl, rfl⟩ := h
        exact ⟨hs, rfl⟩
      · split at h
        · simp only [Except.ok.injEq, Prod.mk.injEq] at h
          obtain ⟨rfl, rfl⟩ := h
          exact ⟨hs, rfl⟩
        · split at h
          · simp only [Except.ok.injEq, Prod.mk.injEq] at h
            obtain ⟨rfl, rfl⟩ := h
            exact ⟨hs, rfl⟩
          · split at h
            · simp only [Except.ok.injEq, Prod.mk.injEq] at h
              obtain ⟨rfl, rfl⟩ := h
              exact ⟨hs, rfl⟩
            · split at h
              · simp only [Except.ok.injEq, Prod.mk.injEq] at h
                obtain ⟨rfl, rfl⟩ := h
                exact ⟨hs, rfl⟩
              · split at h
                · simp only [Except.ok.injEq, Prod.mk.injEq] at h
                  obtain ⟨rfl, rfl⟩ := h
                  exact ⟨hs, rfl⟩
                · split at h
                  · split at h
                    · exact Except.noConfusion h
                    · split at h
                      · exact Except.noConfusion h
                      · rename_i sp s1 h1
                        simp only [Except.ok.injEq, Prod.mk.injEq] at h
                        obtain ⟨rfl, rfl⟩ := h
                        obtain ⟨hs1, hp1⟩ := ihT _ _ _ _ _ h1 hs
                        refine ⟨hs1, ?_⟩
                        cases sp with
                        | mk p nb =>
                          simpa [ptPartIdxs, specPartIdxs,
                                 PropSpec.propType] using hp1
                  · split at h
                    · split at h
                      · exact Except.noConfusion h
                      · rename_i os s1 h1
                        simp only [Except.ok.injEq, Prod.mk.injEq] at h
                        obtain ⟨rfl, rfl⟩ := h
                        obtain ⟨hs1, hp1⟩ := ihU _ _ _ _ _ h1 hs
                        exact ⟨hs1, by simpa [ptPartIdxs] using hp1⟩
                    · split at h
                      · split at h
                        · exact Except.noConfusion h
                        · rename_i i s1 h1
                          simp only [Except.ok.injEq, Prod.mk.injEq] at h
                          obtain ⟨rfl, rfl⟩ := h
                          exact ⟨ihS _ _ _ _ h1 hs, rfl⟩
                      · simp only [Except.ok.injEq, Prod.mk.injEq] at h
                        obtain ⟨rfl, rfl⟩ := h
                        exact ⟨hs, rfl⟩
    · -- unionF
      intro ts refn s os s' h hs
      simp only [unionF] at h
      split at h
      · simp only [Except.ok.injEq, Prod.mk.injEq] at h
        obtain ⟨rfl, rfl⟩ := h
        exact ⟨hs, rfl⟩
      · split at h
        · exact Except.noConfusion h
        · rename_i sp s1 h1
          split at h
          · exact Except.noConfusion h
          · rename_i os2 s2 h2
            simp only [Except.ok.injEq, Prod.mk.injEq] at h
            obtain ⟨rfl, rfl⟩ := h
            obtain ⟨hs1, hp1⟩ := ihT _ _ _ _ _ h1 hs
            obtain ⟨hs2, hp2⟩ := ihU _ _ _ _ _ h2 hs1
            refine ⟨hs2, ?_⟩
            cases sp with
            | mk p nb =>
              simp only [listPartIdxs, PropSpec.propType]
              simp [specPartIdxs, PropSpec.propType] at hp1
              simp [hp1, hp2]

/-- The placeholder test answers true exactly at the placeholder entry. -/
theorem isPlaceholderB_eq_true_iff (e : ObjectSpec) :
    isPlaceholderB e = true ↔ e = placeholderRef := by
  cases e with
  | mk nm ms =>
    simp [isPlaceholderB, placeholderRef, List.isEmpty_iff,
          ObjectSpec.mk.injEq, and_comm]

/-- When no symbol of the graph is named "__placeholder", every interpreter
function can only remove placeholder slots, never leave new ones: a
placeholder index of the output state was already a placeholder index of
the input state (the one slot storeRef reserves is patched before it
returns). -/
theorem phAll (G : TypeGraph)
    (H : ∀ sid, (G.syms sid).name ≠ "__placeholder") : ∀ f : Nat,
    (∀ t s i s', storeRefF G f t s = .ok (i, s') →
      ∀ j, isPh s' j → isPh s j) ∧
    (∀ ps refn s ms s', membersF G f ps refn s = .ok (ms, s') →
      ∀ j, isPh s' j → isPh s j) ∧
    (∀ p refn s m s', memberF G f p refn s = .ok (m, s') →
      ∀ j, isPh s' j → isPh s j) ∧
    (∀ t refn s sp s', typeToPropSpecF G f t refn s = .ok (sp, s') →
      ∀ j, isPh s' j → isPh s j) ∧
    (∀ symO refn s o s', fnSymF G f symO refn s = .ok (o, s') →
      ∀ j, isPh s' j → isPh s j) ∧
    (∀ ps refn s args s', paramsF G f ps refn s = .ok (args, s') →
      ∀ j, isPh s' j → isPh s j) ∧
    (∀ t refn s pt s', structuralF G f t refn s = .ok (pt, s') →
      ∀ j, isPh s' j → isPh s j) ∧
    (∀ ts refn s os s', unionF G f ts refn s = .ok (os, s') →
      ∀ j, isPh s' j → isPh s j) := by
  intro f
  induction f with
  | zero =>
    refine ⟨?_, ?_, ?_, ?_, ?_, ?_, ?_, ?_⟩ <;>
      (intros; rename_i h _ _; exact Except.noConfusion h)
  | succ f ih =>
    obtain ⟨ihS, ihMs, ihM, ihT, ihF, ihP, ihSt, ihU⟩ := ih
    refine ⟨?_, ?_, ?_, ?_, ?_, ?_, ?_, ?_⟩
    · -- storeRefF
      intro t s i s' h
      simp only [storeRefF] at h
      split at h
      · simp only [Except.ok.injEq, Prod.mk.injEq] at h
        obtain ⟨rfl, rfl⟩ := h
        exact fun j hj => hj
      · rename_i hm
        split at h
        · exact Except.noConfusion h
        · rename_i sid hsid
          split at h
          · exact Except.noConfusion h
          · rename_i members s2 hmem
            simp only [Except.ok.injEq, Prod.mk.injEq] at h
            obtain ⟨rfl, rfl⟩ := h
            intro j hj
            have hlt2 : s.refs.length < s2.refs.length := by
              have := ((growthAll G f).2.1 _ _ _ _ _ hmem).1
              simp only [List.length_append, List.length_singleton] at this
              omega
            simp only [isPh] at hj ⊢
            by_cases hje : s.refs.length = j
            · subst hje
              rw [List.getElem?_set_eq_of_lt _ hlt2] at hj
              simp only [Option.some.injEq] at hj
              have hname := congrArg ObjectSpec.name hj
              simp only [placeholderRef] at hname
              split at hname
              · exact Option.noConfusion hname
              · simp only [Option.some.injEq] at hname
                exact absurd hname (H sid)
            · rw [List.getElem?_set_ne hje] at hj
              have hj1 := ihMs _ _ _ _ _ hmem j hj
              simp only [isPh] at hj1
              by_cases hlt : j < s.refs.length
              · rwa [List.getElem?_append_left hlt] at hj1
              · rw [List.getElem?_eq_none (by
                  simp only [List.length_append, List.length_singleton]
                  omega)] at hj1
                exact Option.noConfusion hj1
    · -- membersF
      intro ps refn s ms s' h
      simp only [membersF] at h
      split at h
      · simp only [Except.ok.injEq, Prod.mk.injEq] at h
        obtain ⟨rfl, rfl⟩ := h
        exact fun j hj => hj
      · split at h
        · exact Except.noConfusion h
        · rename_i m1 s1 h1
          split at h
          · exact Except.noConfusion h
          · rename_i ms2 s2 h2
            simp only [Except.ok.injEq, Prod.mk.injEq] at h
            obtain ⟨rfl, rfl⟩ := h
            exact fun j hj => ihM _ _ _ _ _ h1 j (ihMs _ _ _ _ _ h2 j hj)
    · -- memberF
      intro p refn s m s' h
      simp only [memberF] at h
      split at h
      · exact Except.noConfusion h
      · split at h
        · exact Except.noConfusion h
        · rename_i sp s1 h1
          simp only [Except.ok.injEq, Prod.mk.injEq] at h
          obtain ⟨rfl, rfl⟩ := h
          exact ihT _ _ _ _ _ h1
    · -- typeToPropSpecF
      intro t refn s sp s' h
      simp only [typeToPropSpecF] at h
      split at h
      · exact Except.noConfusion h
      · rename_i fnO s1 h1
        split at h
        · simp only [Except.ok.injEq, Prod.mk.injEq] at h
          obtain ⟨rfl, rfl⟩ := h
          exact ihF _ _ _ _ _ h1
        · split at h
          · simp only [Except.ok.injEq, Prod.mk.injEq] at h
            obtain ⟨rfl, rfl⟩ := h
            exact ihF _ _ _ _ _ h1
          · split at h
            · exact Except.noConfusion h
            · rename_i pt s2 h2
              simp only [Except.ok.injEq, Prod.mk.injEq] at h
              obtain ⟨rfl, rfl⟩ := h
              exact fun j hj =>
                ihF _ _ _ _ _ h1 j (ihSt _ _ _ _ _ h2 j hj)
    · -- fnSymF
      intro symO refn s o s' h
      simp only [fnSymF] at h
      split at h
      · simp only [Except.ok.injEq, Prod.mk.injEq] at h
        obtain ⟨rfl, rfl⟩ := h
        exact fun j hj => hj
      · split at h
        · simp only [Except.ok.injEq, Prod.mk.injEq] at h
          obtain ⟨rfl, rfl⟩ := h
          exact fun j hj => hj
        · split at h
          · split at h
            · exact Except.noConfusion h
            · rename_i args s1 h1
              split at h
              · exact Except.noConfusion h
              · rename_i ret s2 h2
                simp only [Except.ok.injEq, Prod.mk.injEq] at h
                obtain ⟨rfl, rfl⟩ := h
                exact fun j hj =>
                  ihP _ _ _ _ _ h1 j (ihT _ _ _ _ _ h2 j hj)
          · simp only [Except.ok.injEq, Prod.mk.injEq] at h
            obtain ⟨rfl, rfl⟩ := h
            exact fun j hj => hj
    · -- paramsF
      intro ps refn s args s' h
      simp only [paramsF] at h
      split at h
      · simp only [Except.ok.injEq, Prod.mk.injEq] at h
        obtain ⟨rfl, rfl⟩ := h
        exact fun j hj => hj
      · split at h
        · exact Except.noConfusion h
        · rename_i sp s1 h1
          split at h
          · exact Except.noConfusion h
          · rename_i sps s2 h2
            simp only [Except.ok.injEq, Prod.mk.injEq] at h
            obtain ⟨rfl, rfl⟩ := h
            exact fun j hj => ihT _ _ _ _ _ h1 j (ihP _ _ _ _ _ h2 j hj)
    · -- structuralF
      intro t refn s pt s' h
      simp only [structuralF] at h
      split at h
      · simp only [Except.ok.injEq, Prod.mk.injEq] at h
        obtain ⟨rfl, rfl⟩ := h
        exact fun j hj => hj
      · split at h
        · simp only [Except.ok.injEq, Prod.mk.injEq] at h
          obtain ⟨rfl, rfl⟩ := h
          exact fun j hj => hj
        · split at h
          · simp only [Except.ok.injEq, Prod.mk.injEq] at h
            obtain ⟨rfl, rfl⟩ := h
            exact fun j hj => hj
          · split at h
            · simp only [Except.ok.injEq, Prod.mk.injEq] at h
              obtain ⟨rfl, rfl⟩ := h
              exact fun j hj => hj
            · split at h
              · simp only [Except.ok.injEq, Prod.mk.injEq] at h
                obtain ⟨rfl, rfl⟩ := h
                exact fun j hj => hj
              · split at h
                · simp only [Except.ok.injEq, Prod.mk.injEq] at h
                  obtain ⟨rfl, rfl⟩ := h
                  exact fun j hj => hj
                · split at h
                  · split at h
                    · exact Except.noConfusion h
                    · split at h
                      · exact Except.noConfusion h
                      · rename_i sp s1 h1
                        simp only [Except.ok.injEq, Prod.mk.injEq] at h
                        obtain ⟨rfl, rfl⟩ := h
                        exact ihT _ _ _ _ _ h1
                  · split at h
                    · split at h
                      · exact Except.noConfusion h
                      · rename_i os s1 h1
                        simp only [Except.ok.injEq, Prod.mk.injEq] at h
                        obtain ⟨rfl, rfl⟩ := h
                        exact ihU _ _ _ _ _ h1
                    · split at h
                      · split at h
                        · exact Except.noConfusion h
                        · rename_i i s1 h1
                          simp only [Except.ok.injEq, Prod.mk.injEq] at h
                          obtain ⟨rfl, rfl⟩ := h
                          exact ihS _ _ _ _ h1
                      · simp only [Except.ok.injEq, Prod.mk.injEq] at h
                        obtain ⟨rfl, rfl⟩ := h
                        exact fun j hj => hj
    · -- unionF
      intro ts refn s os s' h
      simp only [unionF] at h
      split at h
      · simp only [Except.ok.injEq, Prod.mk.injEq] at h
        obtain ⟨rfl, rfl⟩ := h
        exact fun j hj => hj
      · split at h
        · exact Except.noConfusion h
        · rename_i sp s1 h1
          split at h
          · exact Except.noConfusion h
          · rename_i os2 s2 h2
            simp only [Except.ok.injEq, Prod.mk.injEq] at h
            obtain ⟨rfl, rfl⟩ := h
            exact fun j hj => ihT _ _ _ _ _ h1 j (ihU _ _ _ _ _ h2 j hj)

/-- findComponentsInClass leaves no new placeholder slot. -/
theorem findComponentsInClassF_ph (G : TypeGraph)
    (H : ∀ sid, (G.syms sid).name ≠ "__placeholder") (f : Nat)
    (c : ClassDecl) (comps : List ComponentSpec) (s : St)
    (comps' : List ComponentSpec) (s' : St)
    (h : findComponentsInClassF G f c comps s = .ok (comps', s')) :
    ∀ j, isPh s' j → isPh s j := by
  simp only [findComponentsInClassF] at h
  split at h
  · simp only [Except.ok.injEq, Prod.mk.injEq] at h
    obtain ⟨rfl, rfl⟩ := h
    exact fun j hj => hj
  · split at h
    · simp only [Except.ok.injEq, Prod.mk.injEq] at h
      obtain ⟨rfl, rfl⟩ := h
      exact fun j hj => hj
    · split at h
      · exact Except.noConfusion h
      · rename_i ndx s1 h1
        split at h
        · exact Except.noConfusion h
        · simp only [Except.ok.injEq, Prod.mk.injEq] at h
          obtain ⟨rfl, rfl⟩ := h
          exact (phAll G H f).1 _ _ _ _ h1

/-- The class fold leaves no new placeholder slot. -/
theorem runClassesF_ph (G : TypeGraph)
    (H : ∀ sid, (G.syms sid).name ≠ "__placeholder") (f : Nat) :
    ∀ (cs : List ClassDecl) (comps : List ComponentSpec) (s : St)
      (comps' : List ComponentSpec) (s' : St),
    runClassesF G f cs comps s = .ok (comps', s') →
    ∀ j, isPh s' j → isPh s j := by
  intro cs
  induction cs with
  | nil =>
    intro comps s comps' s' h
    simp only [runClassesF, Except.ok.injEq, Prod.mk.injEq] at h
    obtain ⟨rfl, rfl⟩ := h
    exact fun j hj => hj
  | cons c cs ih =>
    intro comps s comps' s' h
    simp only [runClassesF] at h
    split at h
    · exact Except.noConfusion h
    · rename_i comps1 s1 h1
      exact fun j hj =>
        findComponentsInClassF_ph G H f c comps s comps1 s1 h1 j
          (ih _ _ _ _ h j hj)

theorem idxB_mono {n m : Nat} (h : n ≤ m) {l : List Nat} (hl : idxB n l) :
    idxB m l :=
  fun i hi => lt_of_lt_of_le (hl i hi) h

theorem idxB_append {n : Nat} {a b : List Nat} (ha : idxB n a)
    (hb : idxB n b) : idxB n (a ++ b) := by
  intro i hi
  rcases List.mem_append.mp hi with hi | hi
  · exact ha i hi
  · exact hb i hi

theorem idxB_nil (n : Nat) : idxB n [] := fun i hi => absurd hi (List.not_mem_nil i)

/-- Every registered known-symbol variant mentions no table index. -/
theorem knownSymbolPropTypes_noRefs (fqn : String) (k : PropType)
    (h : knownSymbolPropTypes fqn = some k) : ptRefIdxs k = [] := by
  simp only [knownSymbolPropTypes] at h
  split at h
  · cases h; rfl
  · split at h
    · cases h; rfl
    · split at h
      · cases h; rfl
      · split at h
        · cases h; rfl
        · exact Option.noConfusion h

/-- Every interpreter function preserves state validity, and every index it
returns or stores points below the output table length. -/
theorem validAll (G : TypeGraph) : ∀ f : Nat,
    (∀ t s i s', storeRefF G f t s = .ok (i, s') →
      validSt s → validSt s' ∧ i < s'.refs.length) ∧
    (∀ ps refn s ms s', membersF G f ps refn s = .ok (ms, s') →
      validSt s → validSt s' ∧ idxB s'.refs.length (membersRefIdxs ms)) ∧
    (∀ p refn s m s', memberF G f p refn s = .ok (m, s') →
      validSt s → validSt s' ∧ idxB s'.refs.length (ptRefIdxs m.propType)) ∧
    (∀ t refn s sp s', typeToPropSpecF G f t refn s = .ok (sp, s') →
      validSt s → validSt s' ∧ idxB s'.refs.length (specRefIdxs sp)) ∧
    (∀ symO refn s o s', fnSymF G f symO refn s = .ok (o, s') →
      validSt s → validSt s' ∧
        ∀ p, o = some p → idxB s'.refs.length (ptRefIdxs p)) ∧
    (∀ ps refn s args s', paramsF G f ps refn s = .ok (args, s') →
      validSt s → validSt s' ∧ idxB s'.refs.length (specListRefIdxs args)) ∧
    (∀ t refn s pt s', structuralF G f t refn s = .ok (pt, s') →
      validSt s → validSt s' ∧ idxB s'.refs.length (ptRefIdxs pt)) ∧
    (∀ ts refn s os s', unionF G f ts refn s = .ok (os, s') →
      validSt s → validSt s' ∧ idxB s'.refs.length (listRefIdxs os)) := by
  intro f
  induction f with
  | zero =>
    refine ⟨?_, ?_, ?_, ?_, ?_, ?_, ?_, ?_⟩ <;>
      (intros; rename_i h _; exact Except.noConfusion h)
  | succ f ih =>
    obtain ⟨ihS, ihMs, ihM, ihT, ihF, ihP, ihSt, ihU⟩ := ih
    refine ⟨?_, ?_, ?_, ?_, ?_, ?_, ?_, ?_⟩
    · -- storeRefF
      intro t s i s' h hv
      simp only [storeRefF] at h
      split at h
      · rename_i j hm
        simp only [Except.ok.injEq, Prod.mk.injEq] at h
        obtain ⟨rfl, rfl⟩ := h
        exact ⟨hv, hv.2 t _ hm⟩
      · rename_i hm
        split at h
        · exact Except.noConfusion h
        · rename_i sid hsid
          split at h
          · exact Except.noConfusion h
          · rename_i members s2 hmem
            simp only [Except.ok.injEq, Prod.mk.injEq] at h
            obtain ⟨rfl, rfl⟩ := h
            have hv1 : validSt ⟨s.refs ++ [placeholderRef],
                (t, s.refs.length) :: s.memo⟩ := by
              constructor
              · intro e he i hi
                rcases List.mem_append.mp he with he | he
                · have := hv.1 e he i hi
                  simp only [List.length_append, List.length_singleton]
                  omega
                · simp only [List.mem_singleton] at he
                  subst he
                  simp only [placeholderRef, membersRefIdxs] at hi
                  exact absurd hi (List.not_mem_nil i)
              · intro k v hk
                simp only [List.length_append, List.length_singleton]
                simp only [lookupMemo] at hk
                split at hk
                · simp only [Option.some.injEq] at hk
                  omega
                · have := hv.2 k v hk
                  omega
            obtain ⟨hv2, hms⟩ := ihMs _ _ _ _ _ hmem hv1
            have hlen : s.refs.length + 1 ≤ s2.refs.length := by
              have := ((growthAll G f).2.1 _ _ _ _ _ hmem).1
              simp only [List.length_append, List.length_singleton] at this
              omega
            constructor
            · constructor
              · intro e he i hi
                simp only [List.length_set]
                rcases List.mem_or_eq_of_mem_set he with he | he
                · exact hv2.1 e he i hi
                · subst he
                  exact hms i hi
              · intro k v hk
                simp only [List.length_set]
                exact hv2.2 k v hk
            · simp only [List.length_set]
              omega
    · -- membersF
      intro ps refn s ms s' h hv
      simp only [membersF] at h
      split at h
      · simp only [Except.ok.injEq, Prod.mk.injEq] at h
        obtain ⟨rfl, rfl⟩ := h
        exact ⟨hv, idxB_nil _⟩
      · split at h
        · exact Except.noConfusion h
        · rename_i m1 s1 h1
          split at h
          · exact Except.noConfusion h
          · rename_i ms2 s2 h2
            simp only [Except.ok.injEq, Prod.mk.injEq] at h
            obtain ⟨rfl, rfl⟩ := h
            obtain ⟨hv1, hb1⟩ := ihM _ _ _ _ _ h1 hv
            obtain ⟨hv2, hb2⟩ := ihMs _ _ _ _ _ h2 hv1
            have hl12 : s1.refs.length ≤ s2.refs.length :=
              ((growthAll G f).2.1 _ _ _ _ _ h2).1
            refine ⟨hv2, ?_⟩
            simp only [membersRefIdxs]
            exact idxB_append (idxB_mono hl12 hb1) hb2
    · -- memberF
      intro p refn s m s' h hv
      simp only [memberF] at h
      split at h
      · exact Except.noConfusion h
      · split at h
        · exact Except.noConfusion h
        · rename_i sp s1 h1
          simp only [Except.ok.injEq, Prod.mk.injEq] at h
          obtain ⟨rfl, rfl⟩ := h
          obtain ⟨hv1, hb1⟩ := ihT _ _ _ _ _ h1 hv
          refine ⟨hv1, ?_⟩
          cases sp with
          | mk pt nb => simpa [specRefIdxs, PropSpec.propType] using hb1
    · -- typeToPropSpecF
      intro t refn s sp s' h hv
      simp only [typeToPropSpecF] at h
      split at h
      · exact Except.noConfusion h
      · rename_i fnO s1 h1
        obtain ⟨hv1, hfo⟩ := ihF _ _ _ _ _ h1 hv
        split at h
        · rename_i k hk
          simp only [Except.ok.injEq, Prod.mk.injEq] at h
          obtain ⟨rfl, rfl⟩ := h
          refine ⟨hv1, ?_⟩
          rcases hso : symOf G t with _ | sid
          · simp only [hso] at hk
            exact Option.noConfusion hk
          · simp only [hso] at hk
            simp only [specRefIdxs, knownSymbolPropTypes_noRefs _ _ hk]
            exact idxB_nil _
        · split at h
          · rename_i hk2 b fp
            simp only [Except.ok.injEq, Prod.mk.injEq] at h
            obtain ⟨rfl, rfl⟩ := h
            refine ⟨hv1, ?_⟩
            simpa [specRefIdxs] using hfo fp rfl
          · split at h
            · exact Except.noConfusion h
            · rename_i pt s2 h2
              simp only [Except.ok.injEq, Prod.mk.injEq] at h
              obtain ⟨rfl, rfl⟩ := h
              obtain ⟨hv2, hb2⟩ := ihSt _ _ _ _ _ h2 hv1
              exact ⟨hv2, by simpa [specRefIdxs] using hb2⟩
    · -- fnSymF
      intro symO refn s o s' h hv
      simp only [fnSymF] at h
      split at h
      · simp only [Except.ok.injEq, Prod.mk.injEq] at h
        obtain ⟨rfl, rfl⟩ := h
        exact ⟨hv, fun p hp => Option.noConfusion hp⟩
      · split at h
        · simp only [Except.ok.injEq, Prod.mk.injEq] at h
          obtain ⟨rfl, rfl⟩ := h
          exact ⟨hv, fun p hp => Option.noConfusion hp⟩
        · split at h
          · split at h
            · exact Except.noConfusion h
            · rename_i args s1 h1
              split at h
              · exact Except.noConfusion h
              · rename_i ret s2 h2
                simp only [Except.ok.injEq, Prod.mk.injEq] at h
                obtain ⟨rfl, rfl⟩ := h
                obtain ⟨hv1, hb1⟩ := ihP _ _ _ _ _ h1 hv
                obtain ⟨hv2, hb2⟩ := ihT _ _ _ _ _ h2 hv1
                have hl12 : s1.refs.length ≤ s2.refs.length :=
                  ((growthAll G f).2.2.2.1 _ _ _ _ _ h2).1
                refine ⟨hv2, fun p hp => ?_⟩
                cases hp
                simp only [ptRefIdxs]
                exact idxB_append (idxB_mono hl12 hb1) hb2
          · simp only [Except.ok.injEq, Prod.mk.injEq] at h
            obtain ⟨rfl, rfl⟩ := h
            exact ⟨hv, fun p hp => Option.noConfusion hp⟩
    · -- paramsF
      intro ps refn s args s' h hv
      simp only [paramsF] at h
      split at h
      · simp only [Except.ok.injEq, Prod.mk.injEq] at h
        obtain ⟨rfl, rfl⟩ := h
        exact ⟨hv, idxB_nil _⟩
      · split at h
        · exact Except.noConfusion h
        · rename_i sp s1 h1
          split at h
          · exact Except.noConfusion h
          · rename_i sps s2 h2
            simp only [Except.ok.injEq, Prod.mk.injEq] at h
            obtain ⟨rfl, rfl⟩ := h
            obtain ⟨hv1, hb1⟩ := ihT _ _ _ _ _ h1 hv
            obtain ⟨hv2, hb2⟩ := ihP _ _ _ _ _ h2 hv1
            have hl12 : s1.refs.length ≤ s2.refs.length :=
              ((growthAll G f).2.2.2.2.2.1 _ _ _ _ _ h2).1
            refine ⟨hv2, ?_⟩
            simp only [specListRefIdxs]
            exact idxB_append (idxB_mono hl12 hb1) hb2
    · -- structuralF
      intro t refn s pt s' h hv
      simp only [structuralF] at h
      split at h
      · simp only [Except.ok.injEq, Prod.mk.injEq] at h
        obtain ⟨rfl, rfl⟩ := h
        exact ⟨hv, idxB_nil _⟩
      · split at h
        · simp only [Except.ok.injEq, Prod.mk.injEq] at h
          obtain ⟨rfl, rfl⟩ := h
          exact ⟨hv, idxB_nil _⟩
        · split at h
          · simp only [Except.ok.injEq, Prod.mk.injEq] at h
            obtain ⟨rfl, rfl⟩ := h
            exact ⟨hv, idxB_nil _⟩
          · split at h
            · simp only [Except.ok.injEq, Prod.mk.injEq] at h
              obtain ⟨rfl, rfl⟩ := h
              exact ⟨hv, idxB_nil _⟩
            · split at h
              · simp only [Except.ok.injEq, Prod.mk.injEq] at h
                obtain ⟨rfl, rfl⟩ := h
                exact ⟨hv, idxB_nil _⟩
              · split at h
                · simp only [Except.ok.injEq, Prod.mk.injEq] at h
                  obtain ⟨rfl, rfl⟩ := h
                  exact ⟨hv, idxB_nil _⟩
                · split at h
                  · split at h
                    · exact Except.noConfusion h
                    · split at h
                      · exact Except.noConfusion h
                      · rename_i sp s1 h1
                        simp only [Except.ok.injEq, Prod.mk.injEq] at h
                        obtain ⟨rfl, rfl⟩ := h
                        obtain ⟨hv1, hb1⟩ := ihT _ _ _ _ _ h1 hv
                        refine ⟨hv1, ?_⟩
                        cases sp with
                        | mk p nb =>
                          simpa [ptRefIdxs, specRefIdxs,
                                 PropSpec.propType] using hb1
                  · split at h
                    · split at h
                      · exact Except.noConfusion h
                      · rename_i os s1 h1
                        simp only [Except.ok.injEq, Prod.mk.injEq] at h
                        obtain ⟨rfl, rfl⟩ := h
                        obtain ⟨hv1, hb1⟩ := ihU _ _ _ _ _ h1 hv
                        exact ⟨hv1, by simpa [ptRefIdxs] using hb1⟩
                    · split at h
                      · split at h
                        · exact Except.noConfusion h
                        · rename_i i s1 h1
                          simp only [Except.ok.injEq, Prod.mk.injEq] at h
                          obtain ⟨rfl, rfl⟩ := h
                          obtain ⟨hv1, hi1⟩ := ihS _ _ _ _ h1 hv
                          refine ⟨hv1, ?_⟩
                          intro j hj
                          simp only [ptRefIdxs, List.mem_singleton] at hj
                          subst hj
                          exact hi1
                      · simp only [Except.ok.injEq, Prod.mk.injEq] at h
                        obtain ⟨rfl, rfl⟩ := h
                        exact ⟨hv, idxB_nil _⟩
    · -- unionF
      intro ts refn s os s' h hv
      simp only [unionF] at h
      split at h
      · simp only [Except.ok.injEq, Prod.mk.injEq] at h
        obtain ⟨rfl, rfl⟩ := h
        exact ⟨hv, idxB_nil _⟩
      · split at h
        · exact Except.noConfusion h
        · rename_i sp s1 h1
          split at h
          · exact Except.noConfusion h
          · rename_i os2 s2 h2
            simp only [Except.ok.injEq, Prod.mk.injEq] at h
            obtain ⟨rfl, rfl⟩ := h
            obtain ⟨hv1, hb1⟩ := ihT _ _ _ _ _ h1 hv
            obtain ⟨hv2, hb2⟩ := ihU _ _ _ _ _ h2 hv1
            have hl12 : s1.refs.length ≤ s2.refs.length :=
              ((growthAll G f).2.2.2.2.2.2.2 _ _ _ _ _ h2).1
            refine ⟨hv2, ?_⟩
            cases sp with
            | mk p nb =>
              simp only [listRefIdxs]
              refine idxB_append (idxB_mono hl12 ?_) hb2
              simpa [specRefIdxs, PropSpec.propType] using hb1

/-- findComponentsInClass preserves validity: the accumulated components
keep pointing into the table. -/
theorem findComponentsInClassF_valid (G : TypeGraph) (f : Nat)
    (c : ClassDecl) (comps : List ComponentSpec) (s : St)
    (comps' : List ComponentSpec) (s' : St)
    (h : findComponentsInClassF G f c comps s = .ok (comps', s'))
    (hv : validSt s)
    (hc : ∀ x ∈ comps, x.propsRefIndex < s.refs.length) :
    validSt s' ∧ ∀ x ∈ comps', x.propsRefIndex < s'.refs.length := by
  simp only [findComponentsInClassF] at h
  split at h
  · simp only [Except.ok.injEq, Prod.mk.injEq] at h
    obtain ⟨rfl, rfl⟩ := h
    exact ⟨hv, hc⟩
  · split at h
    · simp only [Except.ok.injEq, Prod.mk.injEq] at h
      obtain ⟨rfl, rfl⟩ := h
      exact ⟨hv, hc⟩
    · split at h
      · exact Except.noConfusion h
      · rename_i ndx s1 h1
        split at h
        · exact Except.noConfusion h
        · rename_i cs hcs
          simp only [Except.ok.injEq, Prod.mk.injEq] at h
          obtain ⟨rfl, rfl⟩ := h
          obtain ⟨hv1, hndx⟩ := (validAll G f).1 _ _ _ _ h1 hv
          have hgrow : s.refs.length ≤ s1.refs.length :=
            ((growthAll G f).1 _ _ _ _ h1).1
          refine ⟨hv1, ?_⟩
          intro x hx
          rcases List.mem_append.mp hx with hx | hx
          · exact lt_of_lt_of_le (hc x hx) hgrow
          · simp only [List.mem_singleton] at hx
            subst hx
            exact hndx

/-- The class fold preserves validity. -/
theorem runClassesF_valid (G : TypeGraph) (f : Nat) :
    ∀ (cs : List ClassDecl) (comps : List ComponentSpec) (s : St)
      (comps' : List ComponentSpec) (s' : St),
    runClassesF G f cs comps s = .ok (comps', s') →
    validSt s → (∀ x ∈ comps, x.propsRefIndex < s.refs.length) →
    validSt s' ∧ ∀ x ∈ comps', x.propsRefIndex < s'.refs.length := by
  intro cs
  induction cs with
  | nil =>
    intro comps s comps' s' h hv hc
    simp only [runClassesF, Except.ok.injEq, Prod.mk.injEq] at h
    obtain ⟨rfl, rfl⟩ := h
    exact ⟨hv, hc⟩
  | cons c cs ih =>
    intro comps s comps' s' h hv hc
    simp only [runClassesF] at h
    split at h
    · exact Except.noConfusion h
    · rename_i comps1 s1 h1
      obtain ⟨hv1, hc1⟩ :=
        findComponentsInClassF_valid G f c comps s comps1 s1 h1 hv hc
      exact ih _ _ _ _ h hv1 hc1

/-- findComponentsInClass keeps the table free of partRef. -/
theorem findComponentsInClassF_noPart (G : TypeGraph) (f : Nat)
    (c : ClassDecl) (comps : List ComponentSpec) (s : St)
    (comps' : List ComponentSpec) (s' : St)
    (h : findComponentsInClassF G f c comps s = .ok (comps', s'))
    (hs : refsNoPart s) : refsNoPart s' := by
  simp only [findComponentsInClassF] at h
  split at h
  · simp only [Except.ok.injEq, Prod.mk.injEq] at h
    obtain ⟨rfl, rfl⟩ := h
    exact hs
  · split at h
    · simp only [Except.ok.injEq, Prod.mk.injEq] at h
      obtain ⟨rfl, rfl⟩ := h
      exact hs
    · split at h
      · exact Except.noConfusion h
      · rename_i ndx s1 h1
        split at h
        · exact Except.noConfusion h
        · simp only [Except.ok.injEq, Prod.mk.injEq] at h
          obtain ⟨rfl, rfl⟩ := h
          exact (noPartAll G f).1 _ _ _ _ h1 hs

/-- The class fold keeps the table free of partRef. -/
theorem runClassesF_noPart (G : TypeGraph) (f : Nat) :
    ∀ (cs : List ClassDecl) (comps : List ComponentSpec) (s : St)
      (comps' : List ComponentSpec) (s' : St),
    runClassesF G f cs comps s = .ok (comps', s') →
    refsNoPart s → refsNoPart s' := by
  intro cs
  induction cs with
  | nil =>
    intro comps s comps' s' h hs
    simp only [runClassesF, Except.ok.injEq, Prod.mk.injEq] at h
    obtain ⟨rfl, rfl⟩ := h
    exact hs
  | cons c cs ih =>
    intro comps s comps' s' h hs
    simp only [runClassesF] at h
    split at h
    · exact Except.noConfusion h
    · rename_i comps1 s1 h1
      exact ih _ _ _ _ h (findComponentsInClassF_noPart G f c comps s
        comps1 s1 h1 hs)

/-- C1: for a self-referential record type — directly self-referential
(type Foo = \x7b foo?: Foo \x7d, over arbitrary record and member names and
anonymity) or cyclic through an intermediate record (Foo = \x7b a: Bar \x7d,
Bar = \x7b b: Foo \x7d) — classification via storeRef terminates (it succeeds
at every sufficiently large fuel, uniformly in the fuel), the reference
table holds exactly one entry for the type (the final table and memo are
given in full), and the self-referring member's propType is a ref whose
index is that entry's own index. -/
theorem claim1_self_referential_storeRef
    (recN memN fooN barN aN bN : String) (anon : Bool) (f : Nat)
    (hf1 : fooN ≠ "React.SyntheticEvent") (hf2 : fooN ≠ "React.MouseEvent")
    (hf3 : fooN ≠ "React.ReactElement") (hf4 : fooN ≠ "React.ReactNode")
    (hb1 : barN ≠ "React.SyntheticEvent") (hb2 : barN ≠ "React.MouseEvent")
    (hb3 : barN ≠ "React.ReactElement") (hb4 : barN ≠ "React.ReactNode") :
    storeRefF (selfRefG recN memN anon) (f+1+1+1+1+1+1) 0 ⟨[], []⟩ =
      .ok (0, ⟨[⟨if anon then none else some recN, [⟨memN, true, .ref 0⟩]⟩],
               [(0, 0)]⟩) ∧
    storeRefF (indirectG fooN barN aN bN) (f+1+1+1+1+1+1+1+1+1+1+1) 0 ⟨[], []⟩ =
      .ok (0, ⟨[⟨some fooN, [⟨aN, false, .ref 1⟩]⟩,
                ⟨some barN, [⟨bN, false, .ref 0⟩]⟩],
               [(1, 1), (0, 0)]⟩) := by
  constructor
  · simp [storeRefF, membersF, memberF, typeToPropSpecF, fnSymF, structuralF,
          selfRefG, lookupMemo, knownSymbolPropTypes, symOf, placeholderRef,
          PropSpec.propType, PropSpec.isNullable]
  · simp [storeRefF, membersF, memberF, typeToPropSpecF, fnSymF, structuralF,
          indirectG, lookupMemo, knownSymbolPropTypes, symOf, placeholderRef,
          PropSpec.propType, PropSpec.isNullable,
          hf1, hf2, hf3, hf4, hb1, hb2, hb3, hb4]

/-- Witness for C1 at type Foo = \x7b foo?: Foo \x7d and at the pair
Foo = \x7b a: Bar \x7d, Bar = \x7b b: Foo \x7d. -/
theorem claim1_self_referential_storeRef_witness :
    storeRefF (selfRefG "Foo" "foo" false) (0+1+1+1+1+1+1) 0 ⟨[], []⟩ =
      .ok (0, ⟨[⟨some "Foo", [⟨"foo", true, .ref 0⟩]⟩], [(0, 0)]⟩) ∧
    storeRefF (indirectG "Foo" "Bar" "a" "b") (0+1+1+1+1+1+1+1+1+1+1+1) 0
        ⟨[], []⟩ =
      .ok (0, ⟨[⟨some "Foo", [⟨"a", false, .ref 1⟩]⟩,
                ⟨some "Bar", [⟨"b", false, .ref 0⟩]⟩],
               [(1, 1), (0, 0)]⟩) := by
  have h := claim1_self_referential_storeRef "Foo" "foo" "Foo" "Bar" "a" "b"
    false 0
    (by decide) (by decide) (by decide) (by decide)
    (by decide) (by decide) (by decide) (by decide)
  simpa using h

/-- C2: a second storeRef call on the same type-graph node — at the state
the first call produced, or at any later state of the same pass (every
interpreter step only extends the memo, by growthAll) — returns the index
of the first call and returns the state unchanged, so refs.length does not
grow; and the end-to-end run on two sibling classes bound to the identical
props type-graph node yields one shared reference-table entry
(refs.length = 1) with both components pointing at index 0. -/
theorem claim2_storeRef_dedup :
    (∀ (G : TypeGraph) (f t : Nat) (s : St) (i : Nat) (s' : St)
       (g : Nat) (s'' : St),
      storeRefF G f t s = .ok (i, s') → memoLe s'.memo s''.memo →
      storeRefF G (g+1) t s'' = .ok (i, s'')) ∧
    findComponentsInSourceFileF sharedPropsG sharedPropsClasses 10 =
      .ok ⟨[⟨"A", 0⟩, ⟨"B", 0⟩],
           [⟨some "Props", [⟨"foo", false, .string⟩]⟩]⟩ := by
  constructor
  · intro G f t s i s' g s'' h hle
    have hm := hle t i (storeRefF_memo_out G f t s i s' h)
    simp only [storeRefF, hm]
  · rfl

/-- Witness for C2: in the shared-props pass, the props node (node 1) is
stored once; re-submitting it at the resulting state returns index 0 and
leaves the state untouched. -/
theorem claim2_storeRef_dedup_witness :
    storeRefF sharedPropsG (0+1) 1
        ⟨[⟨some "Props", [⟨"foo", false, .string⟩]⟩], [(1, 0)]⟩ =
      .ok (0, ⟨[⟨some "Props", [⟨"foo", false, .string⟩]⟩], [(1, 0)]⟩) :=
  claim2_storeRef_dedup.1 sharedPropsG 8 1 ⟨[], []⟩ 0
    ⟨[⟨some "Props", [⟨"foo", false, .string⟩]⟩], [(1, 0)]⟩ 0
    ⟨[⟨some "Props", [⟨"foo", false, .string⟩]⟩], [(1, 0)]⟩
    (by rfl) (memoLe_refl _)

/-- A symbol whose first declaration is missing or not signatured makes
symbolToFunctionPropType produce nothing and leave the state untouched. -/
theorem fnSymF_not_signatured (G : TypeGraph) (f sid : Nat)
    (refn : Option Nat) (s : St)
    (hsig : ∀ d, (G.syms sid).decls.head? = some d →
      (G.decls d).isSignatured = false) :
    fnSymF G (f+1) (some sid) refn s = .ok (none, s) := by
  simp only [fnSymF]
  cases hd : (G.syms sid).decls.head? with
  | none => rfl
  | some d => simp [hsig d hd]

/-- C4 amended: the known-symbol check reads the symbol (or alias symbol)
of the original, still-wrapped type, not of the unwrapped type.  When that
symbol exists, its fully qualified name is registered, and its first
declaration is not signatured (as for the registered framework types),
classification returns the registered variant immediately with the source
type's nullability, bypassing all structural rules (first conjunct).  An
optional property of a registered type, however, is declared as a union
with undefined, which carries no symbol at all, so the registry is missed
and the unwrapped event type is classified structurally into a ref
(second conjunct, for ev?: React.SyntheticEvent). -/
theorem claim4_known_symbol_amended :
    (∀ (G : TypeGraph) (f t : Nat) (refn : Option Nat) (s : St)
       (sid : Nat) (k : PropType),
      symOf G t = some sid →
      knownSymbolPropTypes (G.syms sid).fqn = some k →
      (∀ d, (G.syms sid).decls.head? = some d →
        (G.decls d).isSignatured = false) →
      typeToPropSpecF G (f+1+1) t refn s =
        .ok (⟨k, (G.types t).isNullable⟩, s)) ∧
    typeToPropSpecF optEventG 8 1 (some 0) ⟨[], []⟩ =
      .ok (⟨.ref 0, true⟩,
           ⟨[⟨some "SyntheticEvent", [⟨"bubbles", false, .boolean⟩]⟩],
            [(0, 0)]⟩) := by
  constructor
  · intro G f t refn s sid k hsym hreg hsig
    simp only [typeToPropSpecF, hsym, hreg,
               fnSymF_not_signatured G f sid refn s hsig]
  · rfl

/-- Witness for C4: a non-optional property of the registered synthetic
event type classifies to the event variant with no nullability and no
state change. -/
theorem claim4_known_symbol_amended_witness :
    typeToPropSpecF optEventG (0+1+1) 0 (some 0) ⟨[], []⟩ =
      .ok (⟨.event, false⟩, ⟨[], []⟩) :=
  claim4_known_symbol_amended.1 optEventG 0 0 (some 0) ⟨[], []⟩ 0 .event
    rfl rfl (fun d hd => by cases hd; rfl)

/-- Counterexample to C4 as stated: the property ev?: React.SyntheticEvent
has a declared type whose fully qualified name is in the registry, yet its
classification is the structural ref 0 (a reference-table entry expanded
member by member), not the registered event variant: the symbol is read
from the wrapped union type, which has none. -/
theorem claim4_known_symbol_cex :
    typeToPropSpecF optEventG 8 1 (some 0) ⟨[], []⟩ =
      .ok (⟨.ref 0, true⟩,
           ⟨[⟨some "SyntheticEvent", [⟨"bubbles", false, .boolean⟩]⟩],
            [(0, 0)]⟩) ∧
    ((PropType.ref 0).kind == "event") = false := ⟨rfl, rfl⟩

/-- C5 amended: the locator follows base types transitively only through
base types that lack symbol information.  First conjunct: a base type that
has a symbol whose fully qualified name is not the marker is a dead end,
whatever its own base types are.  Second conjunct: the end-to-end run on a
class whose marker appears after two levels of symbol-less intermediate
base types still records the ComponentSpec. -/
theorem claim5_transitive_marker_amended :
    (∀ (G : TypeGraph) (f t sid : Nat),
      (G.types t).symbol = some sid →
      (G.syms sid).fqn ≠ "React.Component" →
      isTypeReactComponentF G f t = false) ∧
    findComponentsInSourceFileF chainG chainClasses 10 =
      .ok ⟨[⟨"C", 0⟩], [⟨some "Props", [⟨"foo", false, .string⟩]⟩]⟩ := by
  constructor
  · intro G f t sid hs hn
    cases f with
    | zero => rfl
    | succ f =>
      simp only [isTypeReactComponentF, hs]
      simp [hn]
  · rfl

/-- Witness for C5: the base type of class D carries the symbol of class
Intermediate, so the marker predicate answers false at it. -/
theorem claim5_transitive_marker_amended_witness :
    isTypeReactComponentF chainSymG 10 1 = false :=
  claim5_transitive_marker_amended.1 chainSymG 10 1 1 rfl (by decide)

/-- Counterexample to C5 as stated: class D derives from the marker
transitively (its base type Intermediate itself extends React.Component),
the marker being found after two levels, but the intermediate base type
has symbol information, so the locator rejects it and the pass records no
ComponentSpec at all. -/
theorem claim5_transitive_marker_cex :
    findComponentsInSourceFileF chainSymG chainSymClasses 10 =
      .ok ⟨[], []⟩ := rfl

/-- C6 amended: a nullable type classifies with isNullable true, and its
propType agrees with the classification of the non-nullable form exactly
when that classification does not go through the symbol-dependent checks:
the wrapper union carries no symbol, so whenever the unwrapped type's own
symbol triggers neither the known-symbol registry nor the callable
conversion, the two classifications differ only in the nullability flag
(and have identical state effects and errors). -/
theorem claim6_nullable_unwrap_amended :
    (∀ (G : TypeGraph) (f : Nat) (u t : Nat) (refn : Option Nat) (s : St),
      (G.types u).isNullable = true →
      (G.types u).nonNullable = t →
      symOf G u = none →
      (G.types t).isNullable = false →
      (match symOf G t with
       | none => (none : Option PropType)
       | some sid => knownSymbolPropTypes (G.syms sid).fqn) = none →
      (∀ sid d, symOf G t = some sid → (G.syms sid).decls.head? = some d →
        (G.decls d).isSignatured = false) →
      typeToPropSpecF G (f+1+1) u refn s =
        (typeToPropSpecF G (f+1+1) t refn s).map
          (fun x => (⟨x.1.propType, true⟩, x.2))) ∧
    typeToPropSpecF optStrG 8 1 none ⟨[], []⟩ =
      .ok (⟨.string, true⟩, ⟨[], []⟩) ∧
    typeToPropSpecF optStrG 8 0 none ⟨[], []⟩ =
      .ok (⟨.string, false⟩, ⟨[], []⟩) := by
  refine ⟨?_, rfl, rfl⟩
  intro G f u t refn s hnul hnn husym htnul hknown hsig
  have hfn_t : fnSymF G (f+1) (symOf G t) refn s = .ok (none, s) := by
    cases hst : symOf G t with
    | none => rfl
    | some sid =>
      exact fnSymF_not_signatured G f sid refn s
        (fun d hd => hsig sid d hst hd)
  have hfn_u : fnSymF G (f+1) none refn s = .ok (none, s) := rfl
  simp only [typeToPropSpecF, husym, hnul, hnn, htnul, hknown, hfn_t, hfn_u]
  cases hstr : structuralF G (f+1) t refn s with
  | error e => simp [hstr, Except.map]
  | ok x =>
    cases x with
    | mk pt s2 => simp [hstr, Except.map, PropSpec.propType]

/-- Witness for C6 at s?: string: the optional string property classifies
to the classification of string with the nullability flag set. -/
theorem claim6_nullable_unwrap_amended_witness :
    typeToPropSpecF optStrG (0+1+1) 1 none ⟨[], []⟩ =
      (typeToPropSpecF optStrG (0+1+1) 0 none ⟨[], []⟩).map
        (fun x => (⟨x.1.propType, true⟩, x.2)) :=
  claim6_nullable_unwrap_amended.1 optStrG 0 1 0 none ⟨[], []⟩
    rfl rfl rfl rfl rfl (fun sid d h => by cases h)

/-- Counterexample to C6 as stated: for the optional callback
cb?: () =&gt; void, the wrapped union carries no symbol, so the callable check
is skipped and the unwrapped function type (an object in the host) is
stored structurally as ref 0 over an empty anonymous entry — while the
classification of the non-nullable form itself is the fn variant.  The
returned propType is therefore not the classification of the non-nullable
form. -/
theorem claim6_nullable_unwrap_cex :
    typeToPropSpecF optFnG 8 1 (some 0) ⟨[], []⟩ =
      .ok (⟨.ref 0, true⟩, ⟨[⟨none, []⟩], [(0, 0)]⟩) ∧
    typeToPropSpecF optFnG 8 0 (some 0) ⟨[], []⟩ =
      .ok (⟨.fn [] ⟨.void, false⟩, false⟩, ⟨[], []⟩) ∧
    ((PropType.ref 0).kind == (PropType.fn [] ⟨.void, false⟩).kind) = false :=
  ⟨rfl, rfl, rfl⟩

/-- C7 amended: when the unwrapped type is void-like (and the wrapped type
carries no symbol), classification returns the void variant with
isNullable equal to the source type's own nullability — which can be true,
since the host admits nullable void types such as void | null (undefined
alone is absorbed into void by the host, but null is not). -/
theorem claim7_void_nullability_amended :
    (∀ (G : TypeGraph) (f : Nat) (u : Nat) (refn : Option Nat) (s : St),
      symOf G u = none →
      (G.types (if (G.types u).isNullable then (G.types u).nonNullable
                else u)).isVoidLike = true →
      typeToPropSpecF G (f+1+1) u refn s =
        .ok (⟨.void, (G.types u).isNullable⟩, s)) ∧
    typeToPropSpecF voidNullG 8 1 none ⟨[], []⟩ =
      .ok (⟨.void, true⟩, ⟨[], []⟩) := by
  refine ⟨?_, rfl⟩
  intro G f u refn s husym hvoid
  have hfn : fnSymF G (f+1) (none : Option Nat) refn s = .ok (none, s) := rfl
  simp only [typeToPropSpecF, husym, hfn, structuralF, hvoid]
  simp

/-- Witness for C7 at the type void | null: nullable, with non-nullable
form void, classifying to the void variant with isNullable true. -/
theorem claim7_void_nullability_amended_witness :
    typeToPropSpecF voidNullG (0+1+1) 1 none ⟨[], []⟩ =
      .ok (⟨.void, (voidNullG.types 1).isNullable⟩, ⟨[], []⟩) :=
  claim7_void_nullability_amended.1 voidNullG 0 1 none ⟨[], []⟩ rfl rfl

/-- Counterexample to C7 as stated: the property type void | null is
nullable and unwraps to void, so the returned PropSpec has the void
variant together with isNullable true. -/
theorem claim7_void_nullability_cex :
    typeToPropSpecF voidNullG 8 1 none ⟨[], []⟩ =
      .ok (⟨.void, true⟩, ⟨[], []⟩) ∧
    (PropSpec.mk .void true).propType.kind = "void" ∧
    (PropSpec.mk .void true).isNullable = true := ⟨rfl, rfl, rfl⟩

/-- C8 amended: the code has no tuple variant and no tuple check.  A
homogeneous sequence type string[] classifies to array(string) (first
conjunct); a fixed-length heterogeneous type such as [string, boolean]
falls through the array check (its type reference carries no Array symbol)
into the object rule, where storeRef demands a symbol the tuple type does
not have, so its classification — and the whole pass over a file whose
props contain such a member — fails with an error instead of producing a
tuple schema (second and third conjuncts). -/
theorem claim8_tuple_vs_array_amended :
    typeToPropSpecF tupleG 8 5 (some 0) ⟨[], []⟩ =
      .ok (⟨.array .string, false⟩, ⟨[], []⟩) ∧
    typeToPropSpecF tupleG 8 4 (some 0) ⟨[], []⟩ =
      .error "storeRef: getSymbolOrThrow" ∧
    findComponentsInSourceFileF tupleG tupleClasses 12 =
      .error "storeRef: getSymbolOrThrow" := ⟨rfl, rfl, rfl⟩

/-- Counterexample to C8 as stated: classifying the tuple type
[string, boolean] does not yield any PropSpec at all (let alone a tuple
variant, which the PropType grammar does not even contain): it raises the
storeRef symbol error. -/
theorem claim8_tuple_vs_array_cex :
    typeToPropSpecF tupleG 8 4 (some 0) ⟨[], []⟩ =
      .error "storeRef: getSymbolOrThrow" := rfl

/-- C10: the partRef (the source's "partial") constructor is unreachable:
in every FinderResult a pass returns, no member propType of any
reference-table entry contains a partRef variant at any nesting depth
(components carry only indices, so the whole result is partRef-free). -/
theorem claim10_no_partial_variant (G : TypeGraph) (classes : List ClassDecl)
    (f : Nat) (r : FinderResult)
    (h : findComponentsInSourceFileF G classes f = .ok r) :
    ∀ e ∈ r.refs, membersPartIdxs e.members = [] := by
  simp only [findComponentsInSourceFileF] at h
  split at h
  · exact Except.noConfusion h
  · rename_i comps s hrun
    simp only [Except.ok.injEq] at h
    subst h
    exact runClassesF_noPart G f classes [] ⟨[], []⟩ comps s hrun
      (fun e he => absurd he (List.not_mem_nil e))

/-- Witness for C10 on the shared-props pass: its single table entry's
member list contains no partRef. -/
theorem claim10_no_partial_variant_witness :
    membersPartIdxs [⟨"foo", false, .string⟩] = [] :=
  claim10_no_partial_variant sharedPropsG sharedPropsClasses 10
    ⟨[⟨"A", 0⟩, ⟨"B", 0⟩], [⟨some "Props", [⟨"foo", false, .string⟩]⟩]⟩
    rfl ⟨some "Props", [⟨"foo", false, .string⟩]⟩ (by simp)

/-- C3: in every FinderResult the pass returns, every ref or partRef index
occurring anywhere in the reference table, and every component's
propsRefIndex, is a valid index into that same result's refs array. -/
theorem claim3_indices_valid (G : TypeGraph) (classes : List ClassDecl)
    (f : Nat) (r : FinderResult)
    (h : findComponentsInSourceFileF G classes f = .ok r) :
    validFinderResult r := by
  simp only [findComponentsInSourceFileF] at h
  split at h
  · exact Except.noConfusion h
  · rename_i comps s hrun
    simp only [Except.ok.injEq] at h
    subst h
    have h0 : validSt ⟨[], []⟩ := by
      constructor
      · intro e he
        exact absurd he (List.not_mem_nil e)
      · intro k v hk
        exact Option.noConfusion hk
    obtain ⟨hv, hc⟩ := runClassesF_valid G f classes [] ⟨[], []⟩ comps s hrun
      h0 (fun x hx => absurd hx (List.not_mem_nil x))
    exact ⟨hc, hv.1⟩

/-- Witness for C3 on the shared-props pass. -/
theorem claim3_indices_valid_witness :
    validFinderResult
      ⟨[⟨"A", 0⟩, ⟨"B", 0⟩], [⟨some "Props", [⟨"foo", false, .string⟩]⟩]⟩ :=
  claim3_indices_valid sharedPropsG sharedPropsClasses 10
    ⟨[⟨"A", 0⟩, ⟨"B", 0⟩], [⟨some "Props", [⟨"foo", false, .string⟩]⟩]⟩ rfl

/-- C9: a pass is atomic.  In the embedding the pass returns an Except
value: either an error — in which case no FinderResult exists at all, the
locally built table being discarded with the failed computation — or a
FinderResult in which every reference-table entry has been patched: no
entry equals the placeholder (assuming the source file declares no symbol
literally named "__placeholder", which is what makes the placeholder value
recognizable).  The proof threads the invariant that every interpreter
function patches, before returning, the one slot it reserved. -/
theorem claim9_pass_atomicity (G : TypeGraph) (classes : List ClassDecl)
    (f : Nat) (r : FinderResult)
    (H : ∀ sid, (G.syms sid).name ≠ "__placeholder")
    (h : findComponentsInSourceFileF G classes f = .ok r) :
    ∀ e ∈ r.refs, isPlaceholderB e = false := by
  simp only [findComponentsInSourceFileF] at h
  split at h
  · exact Except.noConfusion h
  · rename_i comps s hrun
    simp only [Except.ok.injEq] at h
    subst h
    intro e he
    cases hb : isPlaceholderB e with
    | false => rfl
    | true =>
      exfalso
      have he' : e = placeholderRef := (isPlaceholderB_eq_true_iff e).mp hb
      subst he'
      obtain ⟨j, hj⟩ := List.getElem?_of_mem he
      have h0 : isPh ⟨[], []⟩ j :=
        runClassesF_ph G H f classes [] ⟨[], []⟩ comps s hrun j hj
      simp only [isPh] at h0
      rw [List.getElem?_eq_none (by simp)] at h0
      exact Option.noConfusion h0

/-- Witness for C9 on the shared-props pass: its single returned entry is
not the placeholder. -/
theorem claim9_pass_atomicity_witness :
    isPlaceholderB ⟨some "Props", [⟨"foo", false, .string⟩]⟩ = false :=
  claim9_pass_atomicity sharedPropsG sharedPropsClasses 10
    ⟨[⟨"A", 0⟩, ⟨"B", 0⟩], [⟨some "Props", [⟨"foo", false, .string⟩]⟩]⟩
    (by intro sid
        match sid with
        | 0 => decide
        | 1 => decide
        | 2 => decide
        | 3 => decide
        | n+4 => exact fun hc =>
            absurd (show ("B" : String) = "__placeholder" from hc) (by decide))
    rfl ⟨some "Props", [⟨"foo", false, .string⟩]⟩ (by simp)

end ProperTs
